import Mathlib

/-!
Verification of the integration flow execution engine of
`src/auto_qa/qa_tools/int_tests.py`.

The Python module is shallowly embedded: JSON/YAML-like Python values
become the inductive `PyVal`; the module-level helpers
`_substitute_variables`, `_extract_response_data`, `_validate_response`
and the entry points `run_flow` / `run_single_test` become executable
Lean functions.  Network traffic (`requests.Session.request` /
`requests.request`) is modelled by an oracle mapping each request to
either a response or a raised `RequestException`; the append-only
result log written by `_log_result` is an external side effect with no
influence on the returned records and is not modelled.
-/

/-- A Python dict key as it occurs in parsed JSON/YAML data: either a
string or an integer.  (`json.loads` only produces string keys, but the
extraction code indexes dicts with `int(key)`, so integer keys are
representable.) -/
inductive PyKey where
  | s (v : String)
  | i (v : Int)
deriving DecidableEq

/-- A Python value of the shapes the engine manipulates: `None`, bools,
ints, strings, lists and dicts (insertion-ordered association lists
without duplicate keys, mirroring Python dicts).  Floats do not occur in
the claims under verification and are not modelled. -/
inductive PyVal where
  | null
  | bool (b : Bool)
  | int (n : Int)
  | str (v : String)
  | list (xs : List PyVal)
  | dict (es : List (PyKey × PyVal))

/-- Python `str()` of a dict key (used inside f-strings of messages). -/
def pyKeyStr : PyKey → String
  | .s v => v
  | .i n => toString n

/-- Python `repr()` of a dict key (keys are rendered with `repr` inside
container `str()`); string escaping inside `repr` is not modelled. -/
def pyKeyRepr : PyKey → String
  | .s v => "\x27" ++ v ++ "\x27"
  | .i n => toString n

mutual
/-- Python `repr()` of a value (the rendering used for elements inside
containers); escaping of quotes inside strings is not modelled. -/
def pyRepr : PyVal → String
  | .null => "None"
  | .bool b => if b then "True" else "False"
  | .int n => toString n
  | .str v => "\x27" ++ v ++ "\x27"
  | .list xs => "[" ++ pyReprList xs ++ "]"
  | .dict es => "\x7b" ++ pyReprDict es ++ "\x7d"
def pyReprList : List PyVal → String
  | [] => ""
  | [x] => pyRepr x
  | x :: y :: xs => pyRepr x ++ ", " ++ pyReprList (y :: xs)
def pyReprDict : List (PyKey × PyVal) → String
  | [] => ""
  | [(k, v)] => pyKeyRepr k ++ ": " ++ pyRepr v
  | (k, v) :: e :: es => pyKeyRepr k ++ ": " ++ pyRepr v ++ ", " ++ pyReprDict (e :: es)
end

/-- Python `str()`: identity on strings, `repr`-style otherwise. -/
def pyStr : PyVal → String
  | .str v => v
  | v => pyRepr v

/-- First-match association-list lookup: Python dict subscription
`d[k]`, `none` meaning `KeyError` (the modelled dicts carry no
duplicate keys). -/
def dictGet : List (PyKey × PyVal) → PyKey → Option PyVal
  | [], _ => none
  | (k, v) :: es, q => if k = q then some v else dictGet es q

mutual
/-- Python `==` on the modelled values.  `True == 1` and `False == 0`
hold as in Python (bool is a subclass of int); dict comparison is
order-insensitive (same size and every left entry matched by key in the
right dict); lists compare pointwise. -/
def pyEq : PyVal → PyVal → Bool
  | .null, .null => true
  | .bool a, .bool b => a == b
  | .bool a, .int n => (if a then (1 : Int) else 0) == n
  | .int n, .bool a => n == (if a then (1 : Int) else 0)
  | .int a, .int b => a == b
  | .str a, .str b => a == b
  | .list a, .list b => pyEqList a b
  | .dict a, .dict b => a.length == b.length && pyEqDictSub a b
  | _, _ => false
def pyEqList : List PyVal → List PyVal → Bool
  | [], [] => true
  | a :: as1, b :: bs1 => pyEq a b && pyEqList as1 bs1
  | _, _ => false
/-- Every entry of the first dict is present (by key) in the second with
an equal value. -/
def pyEqDictSub : List (PyKey × PyVal) → List (PyKey × PyVal) → Bool
  | [], _ => true
  | (k, v) :: es, b =>
    (match dictGet b k with
     | some v2 => pyEq v v2
     | none => false) && pyEqDictSub es b
end

/-- Python truthiness (`if body:`) for the modelled values. -/
def pyTruthy : PyVal → Bool
  | .null => false
  | .bool b => b
  | .int n => n != 0
  | .str v => v != ""
  | .list xs => !xs.isEmpty
  | .dict es => !es.isEmpty

/-- `isinstance(body, (dict, list))`. -/
def isStructured : PyVal → Bool
  | .list _ => true
  | .dict _ => true
  | _ => false

/-- `isinstance(v, dict)`. -/
def isDict : PyVal → Bool
  | .dict _ => true
  | _ => false

/-- `isinstance(v, str)`. -/
def isStr : PyVal → Bool
  | .str _ => true
  | _ => false

/-! ### String helpers mirroring the Python string methods used. -/

/-- `s.startswith(pre)` (on the underlying character lists, so that the
definition evaluates inside the kernel). -/
def strStartsWith (s pre : String) : Bool :=
  pre.data.isPrefixOf s.data

/-- Substring occurrence test on character lists: Python `pat in s`. -/
def containsSubL (pat : List Char) : List Char → Bool
  | [] => pat.isEmpty
  | c :: rest => pat.isPrefixOf (c :: rest) || containsSubL pat rest

/-- Python `pat in s` for strings. -/
def containsSub (pat s : String) : Bool :=
  containsSubL pat.data s.data

/-- One left-to-right non-overlapping replacement sweep, fuel-indexed so
that the recursion is structural (and hence kernel-reducible).  With
`fuel > s.length` and a nonempty pattern this is Python
`s.replace(pat, rep)`. -/
def replaceFuel : Nat → List Char → List Char → List Char → List Char
  | 0, s, _, _ => s
  | _ + 1, [], _, _ => []
  | fuel + 1, c :: rest, pat, rep =>
    if pat.isPrefixOf (c :: rest) then
      rep ++ replaceFuel fuel ((c :: rest).drop pat.length) pat rep
    else
      c :: replaceFuel fuel rest pat rep

/-- Python `s.replace(pat, rep)` for a nonempty `pat` (every pattern
this module replaces is a `\x7b\x7bkey\x7d\x7d` placeholder, hence
nonempty). -/
def pyReplace (s pat rep : String) : String :=
  String.mk (replaceFuel (s.data.length + 1) s.data pat.data rep.data)

/-- `s.rstrip("/")`: remove every trailing slash. -/
def rstripSlash (s : String) : String :=
  String.mk ((s.data.reverse.dropWhile (fun c => c = '/')).reverse)

/-- `s.lstrip("/")`: remove every leading slash. -/
def lstripSlash (s : String) : String :=
  String.mk (s.data.dropWhile (fun c => c = '/'))

/-- `s.lower()` (ASCII; sufficient for the header names involved). -/
def lowerStr (s : String) : String :=
  String.mk (s.data.map Char.toLower)

/-- A character Python `str.isdigit()` accepts: every character of
Unicode Numeric_Type Decimal or Digit.  Modelled fragment: the ASCII
decimal digits as the decimal class and the superscript digits
one/two/three (U+00B9, U+00B2, U+00B3) as representatives of the
digit-but-not-decimal class, for which `int()` raises `ValueError`;
other Unicode members of either class are omitted (no claim exercises
them). -/
def pyDigitChar (c : Char) : Bool :=
  c.isDigit || c = '¹' || c = '²' || c = '³'

/-- Python `key.isdigit()`: nonempty and every character in the digit
class.  This properly contains the decimal strings `int()` accepts. -/
def strIsDigit (s : String) : Bool :=
  !s.data.isEmpty && s.data.all pyDigitChar

/-- Nonempty and all ASCII decimal digits: the (modelled) strings on
which `int()` succeeds. -/
def strIsDecimal (s : String) : Bool :=
  !s.data.isEmpty && s.data.all Char.isDigit

/-- The numeric value of a decimal digit string. -/
def digitsToNat (s : String) : Nat :=
  s.data.foldl (fun a c => a * 10 + (c.toNat - 48)) 0

/-- Python `int(key)` on a segment the `isdigit` guard let through:
the value for a decimal string, `none` for a digit-class-but-not-decimal
string, on which `int()` raises `ValueError` — an exception NOT in the
`(KeyError, IndexError, TypeError)` tuple the extractor catches. -/
def intOfDigitStr (s : String) : Option Nat :=
  if strIsDecimal s then some (digitsToNat s) else none

/-- Python `path.split(".")` on character lists. -/
def splitDotL : List Char → List (List Char)
  | [] => [[]]
  | c :: rest =>
    let r := splitDotL rest
    if c = '.' then [] :: r
    else
      match r with
      | h :: t => (c :: h) :: t
      | [] => [[c]]

/-- Python `json_path.split(".")`. -/
def splitDots (s : String) : List String :=
  (splitDotL s.data).map String.mk

/-- The placeholder text `_substitute_variables` builds for a key: two
opening braces, the key, two closing braces. -/
def placeholder (key : String) : String :=
  "\x7b\x7b" ++ key ++ "\x7d\x7d"

/-! ### `_substitute_variables` (int_tests.py lines 46-56). -/

/-- The string branch of `_substitute_variables`: for each `(key, value)`
of `variables` in iteration order, replace every occurrence of the
placeholder of `key` by `str(value)`. -/
def substString (text : String) (vars : List (String × PyVal)) : String :=
  vars.foldl (fun result kv => pyReplace result (placeholder kv.1) (pyStr kv.2)) text

/-- `_substitute_variables(text, variables)`: non-string inputs are
returned unchanged; strings undergo the per-key replacement sweep. -/
def substituteVariables (text : PyVal) (vars : List (String × PyVal)) : PyVal :=
  match text with
  | .str s => .str (substString s vars)
  | other => other

/-! ### `_extract_response_data` (int_tests.py lines 59-81). -/

/-- Python subscription `value[n]` with an integer index (the
`key.isdigit()` branch): lists and strings index positionally
(`IndexError` out of range), dicts look up the integer key
(`KeyError` if absent), anything else is a `TypeError`.  All three
exceptions are the caught ones, modelled as `none`. -/
def pyGetInt : PyVal → Nat → Option PyVal
  | .list xs, n => xs.get? n
  | .dict es, n => dictGet es (.i (Int.ofNat n))
  | .str v, n => (v.data.get? n).map (fun c => .str (String.mk [c]))
  | _, _ => none

/-- Python subscription `value[key]` with a string key (the non-digit
branch): only dicts can succeed; lists/strings/scalars raise
`TypeError`, dicts without the key raise `KeyError` — all modelled as
`none`. -/
def pyGetStr : PyVal → String → Option PyVal
  | .dict es, k => dictGet es (.s k)
  | _, _ => none

/-- Outcome of one subscription / of a whole path traversal: a value,
one of the caught exceptions (`KeyError`, `IndexError`, `TypeError` —
turned into a null binding), or an exception the `except` clause does
NOT catch (the `ValueError` from `int(key)`), which escapes
`_extract_response_data` altogether. -/
inductive PathRes where
  | val (v : PyVal)
  | caught
  | uncaught (msg : String)

/-- Lift a subscription whose only failures are the caught exception
classes. -/
def subscriptRes : Option PyVal → PathRes
  | some v => .val v
  | none => .caught

/-- The `str()` of the `ValueError` raised by `int(seg)`. -/
def intValueErrorMsg (seg : String) : String :=
  "invalid literal for int() with base 10: \x27" ++ seg ++ "\x27"

/-- One segment of the dot-path traversal: a digit-classified segment
always takes the integer branch — `int(key)` first (raising an uncaught
`ValueError` on a digit-class-but-not-decimal segment), then
`value[int(key)]` — and never a string-key lookup; any other segment is
the string subscription `value[key]`. -/
def pathStep (v : PyVal) (seg : String) : PathRes :=
  if strIsDigit seg then
    match intOfDigitStr seg with
    | some n => subscriptRes (pyGetInt v n)
    | none => .uncaught (intValueErrorMsg seg)
  else subscriptRes (pyGetStr v seg)

/-- The `for key in json_path.split('.')` traversal over a segment
list; the first non-value outcome aborts the walk. -/
def pathLookup : PyVal → List String → PathRes
  | v, [] => .val v
  | v, seg :: rest =>
    match pathStep v seg with
    | .val v2 => pathLookup v2 rest
    | .caught => .caught
    | .uncaught msg => .uncaught msg

/-- The body `_extract_response_data` works on: the parsed JSON of the
response, or `{"text": response.text}` when `response.json()` raises
`JSONDecodeError`. -/
def extractionData (respJson : Option PyVal) (respText : String) : PyVal :=
  match respJson with
  | some d => d
  | none => .dict [(.s "text", .str respText)]

/-- `_extract_response_data(response, extract_config)`: each configured
variable is bound, in order, to the value at its dot path, or to `None`
when the traversal raises one of the caught exceptions; an uncaught
`ValueError` propagates out of the whole function (`Except.error`
carrying its `str()`), discarding every binding. -/
def extractResponseData (respJson : Option PyVal) (respText : String) :
    List (String × String) → Except String (List (String × PyVal))
  | [] => .ok []
  | (nm, p) :: rest =>
    match pathLookup (extractionData respJson respText) (splitDots p) with
    | .uncaught msg => .error msg
    | .val v =>
      (extractResponseData respJson respText rest).map (fun ext => (nm, v) :: ext)
    | .caught =>
      (extractResponseData respJson respText rest).map (fun ext => (nm, PyVal.null) :: ext)

/-! ### `_validate_response` (int_tests.py lines 84-125). -/

/-- An HTTP response as the validator and extractor observe it:
status code, headers (requests delivers a case-insensitive header
mapping), raw body text, the outcome of `response.json()` (`none`
models a raised `JSONDecodeError`) and
`response.elapsed.total_seconds()` as an exact rational. -/
structure Response where
  status : Int
  headers : List (String × String)
  text : String
  json : Option PyVal
  elapsedSec : ℚ

/-- Lookup in the case-insensitive header mapping of requests
(`header in response.headers` / `response.headers[header]`). -/
def ciLookup (hs : List (String × String)) (key : String) : Option String :=
  match hs.find? (fun p => lowerStr p.1 == lowerStr key) with
  | some p => some p.2
  | none => none

/-- The `expect` mapping of a step (`expectations`): optional expected
status (defaulting to 200 when checked), optional body, optional header
map, optional `max_response_time` in seconds. -/
structure Expectation where
  status : Option Int
  body : Option PyVal
  headers : Option (List (String × String))
  maxResponseTime : Option ℚ

/-- Python `f"{t:.2f}"` for the elapsed seconds in the latency message
(rounding to two decimals; `.2f` rounds the underlying double, which
the rational model approximates by rounding half up — no claim reads
this text). -/
def fmt2 (q : ℚ) : String :=
  let n : Int := Rat.floor (q * 100 + 1 / 2)
  let fp := (n % 100).natAbs
  toString (n / 100) ++ "." ++ (if fp < 10 then "0" else "") ++ toString fp

/-- Rendering of the configured `max_response_time` inside the latency
message (`f"...limit {max_time}s"`). -/
def ratToStr (q : ℚ) : String :=
  if q.den = 1 then toString q.num
  else toString q.num ++ "/" ++ toString q.den

/-- The value `_validate_response` compares bodies against: the parsed
JSON of the response, or the raw text when `response.json()` raises. -/
def validationBodyData (resp : Response) : PyVal :=
  match resp.json with
  | some d => d
  | none => .str resp.text

/-- Check 1 of the validator: the status code must equal the expected
status (default 200). -/
def statusCheck (resp : Response) (exp : Expectation) : List String :=
  let expectedStatus := exp.status.getD 200
  if resp.status != expectedStatus then
    ["Expected status " ++ toString expectedStatus ++ ", got " ++ toString resp.status]
  else []

/-- Check 2 of the validator: when both the expected body and the
response data are dicts, a subset match appending one message per
missing or mismatched key; otherwise a single substring containment
check of the string forms. -/
def bodyCheck (resp : Response) (exp : Expectation) : List String :=
  match exp.body with
  | none => []
  | some expectedBody =>
    match expectedBody, validationBodyData resp with
    | .dict ebs, .dict rds =>
      ebs.filterMap (fun kv =>
        match dictGet rds kv.1 with
        | none => some ("Missing expected key \x27" ++ pyKeyStr kv.1 ++ "\x27 in response")
        | some actual =>
          if pyEq actual kv.2 then none
          else some ("Expected " ++ pyKeyStr kv.1 ++ "=\x27" ++ pyStr kv.2 ++ "\x27, got \x27" ++
            pyStr actual ++ "\x27"))
    | eb, rd =>
      if containsSub (pyStr eb) (pyStr rd) then []
      else ["Expected body content \x27" ++ pyStr eb ++ "\x27 not found in response"]

/-- Check 3 of the validator: every expected header must be present
(case-insensitively) with an exactly equal value, one message per
absence or mismatch. -/
def headersCheck (resp : Response) (exp : Expectation) : List String :=
  match exp.headers with
  | none => []
  | some hs =>
    hs.filterMap (fun kv =>
      match ciLookup resp.headers kv.1 with
      | none => some ("Missing expected header \x27" ++ kv.1 ++ "\x27")
      | some actual =>
        if actual == kv.2 then none
        else some ("Expected header " ++ kv.1 ++ "=\x27" ++ kv.2 ++ "\x27, got \x27" ++
          actual ++ "\x27"))

/-- Check 4 of the validator: the measured elapsed time must not exceed
`max_response_time` when configured. -/
def latencyCheck (resp : Response) (exp : Expectation) : List String :=
  match exp.maxResponseTime with
  | none => []
  | some maxTime =>
    if resp.elapsedSec > maxTime then
      ["Response time " ++ fmt2 resp.elapsedSec ++ "s exceeds limit " ++ ratToStr maxTime ++ "s"]
    else []

/-- `_validate_response(response, expectations)`: the `errors`
accumulator starts empty and each of the four checks appends its
violation messages in sequence, none of them short-circuiting the
later ones. -/
def validateResponse (resp : Response) (exp : Expectation) : List String :=
  let errors : List String := []
  let errors := errors ++ statusCheck resp exp
  let errors := errors ++ bodyCheck resp exp
  let errors := errors ++ headersCheck resp exp
  let errors := errors ++ latencyCheck resp exp
  errors

/-! ### The flow engine `run_flow` (int_tests.py lines 246-404) and the
single-step entry point `run_single_test` (lines 128-243). -/

/-- The variable store threaded across the steps of one flow
invocation. -/
abbrev Vars := List (String × PyVal)

/-- Python dict item assignment `d[key] = v`: overwrite in place when
the key exists, append otherwise. -/
def setVar (vars : Vars) (key : String) (v : PyVal) : Vars :=
  if vars.any (fun p => p.1 == key) then
    vars.map (fun p => if p.1 == key then (key, v) else p)
  else vars ++ [(key, v)]

/-- `variables.update(extracted)`: item assignment for each entry of
`extracted` in order. -/
def updateVars (vars : Vars) (extracted : Vars) : Vars :=
  extracted.foldl (fun acc kv => setVar acc kv.1 kv.2) vars

/-- The key set of a variable store. -/
def varKeys (vars : Vars) : List String :=
  vars.map Prod.fst

/-- The request `run_flow` (and `run_single_test`) hands to requests:
everything `request_kwargs` carries. -/
structure Request where
  method : String
  url : String
  headers : List (String × String)
  timeout : Int
  jsonBody : Option PyVal
  dataBody : Option String

/-- Outcome of one `session.request(**request_kwargs)` call: a response,
or a raised `requests.exceptions.RequestException` whose `str(e)` is
carried in `exn`. -/
inductive ReqOutcome where
  | ok (resp : Response)
  | exn (msg : String)

/-- The HTTP oracle standing in for the network: the outcome of the
request issued at a given step index. -/
abbrev HttpOracle := Nat → Request → ReqOutcome

/-- The full-URL expression shared verbatim by `run_flow` (line 299) and
`run_single_test` (line 180): when the url does not start with the
prefix http, the base with trailing slashes stripped, one slash, and
the url with leading slashes stripped; otherwise the url as-is. -/
def buildFullUrl (url baseUrl : String) : String :=
  if strStartsWith url "http" then url
  else rstripSlash baseUrl ++ "/" ++ lstripSlash url

/-- One step of a collection, with the keys the loop body reads
(`name`, `method`, `url`, `headers`, `body`, `timeout`, `expect`,
`extract`); `none` models an absent key where the code supplies a
default via `.get`. -/
structure Step where
  name : Option String
  method : Option String
  url : Option String
  headers : List (String × String)
  body : Option PyVal
  timeout : Option Int
  expect : Expectation
  extract : Option (List (String × String))

/-- The request a flow step issues: method and url substituted from the
store, headers and timeout taken as configured, a truthy structured
body passed as JSON, a truthy non-structured body stringified and
substituted, a falsy or absent body dropped. -/
def buildRequest (baseUrl : String) (step : Step) (vars : Vars) : Request :=
  let method := substString (step.method.getD "GET") vars
  let url := substString (step.url.getD "") vars
  Request.mk method (buildFullUrl url baseUrl) step.headers (step.timeout.getD 30)
    (match step.body with
     | some b => if pyTruthy b && isStructured b then some b else none
     | none => none)
    (match step.body with
     | some b => if pyTruthy b && !isStructured b then some (substString (pyStr b) vars) else none
     | none => none)

/-- One entry of the `issues` list of a result record.  The Python dict
always carries `type`/`location`/`message`/`step`; step-validation
issues additionally carry `response_status` and a truncated
`response_body`. -/
structure Issue where
  itype : String
  location : String
  message : String
  step : String
  responseStatus : Option Int
  responseBody : Option String

/-- `response.text[:500] + "..." if len(response.text) > 500 else response.text`. -/
def truncBody (t : String) : String :=
  if t.length > 500 then t.take 500 ++ "..." else t

/-- The `location` of an issue raised at step `idx` (0-based):
`f"{collection}:{step_idx + 1}"`. -/
def stepLocation (collection : String) (idx : Nat) : String :=
  collection ++ ":" ++ toString (idx + 1)

/-- `step.get("name", f"Step {step_idx + 1}")`. -/
def stepNameOf (step : Step) (idx : Nat) : String :=
  step.name.getD ("Step " ++ toString (idx + 1))

/-- The error message of the extraction block of one step, when the
step declares `extract` and `_extract_response_data` raises an uncaught
exception (caught only by the loop's generic handler, lines 351-358). -/
def stepExtractError (step : Step) (resp : Response) : Option String :=
  match step.extract with
  | some cfg =>
    match extractResponseData resp.json resp.text cfg with
    | .ok _ => none
    | .error msg => some msg
  | none => none

/-- The issues the loop body of `run_flow` records for one step: a
single request-failure issue on a raised `RequestException`; otherwise
one issue per validation error (each carrying the observed status and
truncated body); otherwise, when validation passed but the extraction
block raised, the single generic-handler issue (no response fields). -/
def stepIssueList (collection : String) (idx : Nat) (step : Step) (outcome : ReqOutcome) :
    List Issue :=
  match outcome with
  | .exn e =>
    [Issue.mk "flow" (stepLocation collection idx) ("Request failed: " ++ e)
      (stepNameOf step idx) none none]
  | .ok resp =>
    if (validateResponse resp step.expect).isEmpty then
      match stepExtractError step resp with
      | some msg =>
        [Issue.mk "flow" (stepLocation collection idx) ("Step execution failed: " ++ msg)
          (stepNameOf step idx) none none]
      | none => []
    else
      (validateResponse resp step.expect).map (fun err =>
        Issue.mk "flow" (stepLocation collection idx) err (stepNameOf step idx)
          (some resp.status) (some (truncBody resp.text)))

/-- Whether the loop body halts the flow at this step (`break`): a
raised request exception, a nonempty validation error list, or — with
validation passed — an uncaught exception from the extraction block. -/
def stepHalts (step : Step) (outcome : ReqOutcome) : Bool :=
  match outcome with
  | .exn _ => true
  | .ok resp =>
    if (validateResponse resp step.expect).isEmpty then
      (stepExtractError step resp).isSome
    else true

/-- The variable store after a step: merged with the extraction results
exactly when validation passed, the step declares `extract`, and the
extraction returned (the `ValueError` aborts before
`variables.update`); unchanged otherwise.  (On a halting step the loop
breaks with the store unchanged.) -/
def stepNext (step : Step) (outcome : ReqOutcome) (vars : Vars) : Vars :=
  match outcome with
  | .exn _ => vars
  | .ok resp =>
    if (validateResponse resp step.expect).isEmpty then
      match step.extract with
      | some cfg =>
        match extractResponseData resp.json resp.text cfg with
        | .ok ext => updateVars vars ext
        | .error _ => vars
      | none => vars
    else vars

/-- What the `for step_idx, step in enumerate(steps)` loop produces:
the issues recorded, the `success` flag as the loop leaves it, the
final variable store, and two ghost observations (the indices of the
steps whose request was actually issued, and the store at entry of each
executed step) used to state the temporal claims. -/
structure StepsOut where
  issues : List Issue
  success : Bool
  finalVars : Vars
  executed : List Nat
  varsTrace : List Vars

/-- The step loop of `run_flow`: execute the request, halt with this
step's issues on the first failure, otherwise extract (if declared) and
continue with the grown store. -/
def runSteps (collection baseUrl : String) (http : HttpOracle) :
    List Step → Nat → Vars → StepsOut
  | [], _, vars => StepsOut.mk [] true vars [] []
  | step :: rest, idx, vars =>
    let outcome := http idx (buildRequest baseUrl step vars)
    if stepHalts step outcome then
      StepsOut.mk (stepIssueList collection idx step outcome) false vars [idx] [vars]
    else
      let out := runSteps collection baseUrl http rest (idx + 1) (stepNext step outcome vars)
      StepsOut.mk out.issues out.success out.finalVars (idx :: out.executed) (vars :: out.varsTrace)

/-- A parsed collection file: name, description, seed variables and the
ordered steps. -/
structure Collection where
  name : Option String
  description : Option String
  seedVars : Vars
  steps : List Step

/-- Outcome of `_load_collection(collection)` together with the
exception classes `run_flow` catches around it (`FileNotFoundError`,
`yaml.YAMLError`, `json.JSONDecodeError`, and the final catch-all). -/
inductive LoadOutcome where
  | ok (c : Collection)
  | fileNotFound (msg : String)
  | yamlError (msg : String)
  | jsonError (msg : String)
  | otherError (msg : String)

/-- The record `run_flow` returns. -/
structure FlowResult where
  success : Bool
  issues : List Issue
  summary : Option String

/-- The returned record plus the ghost observations of the run. -/
structure FlowRun where
  result : FlowResult
  executed : List Nat
  varsTrace : List Vars
  finalVars : Vars

/-- An issue raised at the setup stage (before or instead of any step). -/
def setupIssue (location msg : String) : Issue :=
  Issue.mk "flow" location msg "setup" none none

/-- `run_flow(collection, base_url)`: load the collection (load outcome
supplied, since file IO is a collaborator), reject an empty step list
with a single setup issue, otherwise seed the store from the declared
variables plus `base_url` and run the loop; a fully successful run gets
a summary naming the step count and flow name. -/
def runFlow (collection baseUrl : String) (load : LoadOutcome) (http : HttpOracle) : FlowRun :=
  match load with
  | .ok cd =>
    if cd.steps.isEmpty then
      FlowRun.mk
        (FlowResult.mk false [setupIssue collection "No test steps found in collection"] none)
        [] [] []
    else
      let vars0 := setVar cd.seedVars "base_url" (.str baseUrl)
      let out := runSteps collection baseUrl http cd.steps 0 vars0
      FlowRun.mk
        (FlowResult.mk out.success out.issues
          (if out.success then
            some ("Successfully executed " ++ toString cd.steps.length ++ " steps in flow \x27" ++
              cd.name.getD "Unnamed Flow" ++ "\x27")
          else none))
        out.executed out.varsTrace out.finalVars
  | .fileNotFound m =>
    FlowRun.mk
      (FlowResult.mk false [setupIssue collection ("Collection file not found: " ++ m)] none) [] [] []
  | .yamlError m =>
    FlowRun.mk (FlowResult.mk false [setupIssue collection ("YAML parsing error: " ++ m)] none) [] [] []
  | .jsonError m =>
    FlowRun.mk (FlowResult.mk false [setupIssue collection ("JSON parsing error: " ++ m)] none) [] [] []
  | .otherError m =>
    FlowRun.mk (FlowResult.mk false [setupIssue collection ("Unexpected error: " ++ m)] none) [] [] []

/-- The record `run_single_test` returns: success flag, issues, the
stored raw response (still `None` when the request raised) and the
extracted variables when extraction ran. -/
structure SingleResult where
  success : Bool
  issues : List Issue
  response : Option Response
  extracted : Option Vars

/-- The issue list of the status validation of `run_single_test`
(lines 196-205): a single issue carrying the observed status and
truncated body exactly when the status differs from the expected one. -/
def singleStatusIssues (method url : String) (expectedStatus : Int) (resp : Response) :
    List Issue :=
  if resp.status != expectedStatus then
    [Issue.mk "flow" "cli"
      ("Expected status " ++ toString expectedStatus ++ ", got " ++ toString resp.status)
      (method ++ " " ++ url) (some resp.status) (some (truncBody resp.text))]
  else []

/-- `run_single_test` after header parsing: build the body arguments
(`request_json` from a successful `json.loads`, else the raw string as
`request_data`), build the full URL, issue the request, validate only
the status code, then run extraction when requested and still
successful. -/
def runSingleRequestPhase (method url : String) (baseUrl : String) (expectedStatus : Int)
    (body : Option (String × Option PyVal)) (requestHeaders : List (String × String))
    (extractArg : Option (Except String (List (String × String))))
    (timeout : Int) (http : Request → ReqOutcome) : SingleResult :=
  match http (Request.mk method (buildFullUrl url baseUrl) requestHeaders timeout
      (match body with
       | some (_, some j) => some j
       | _ => none)
      (match body with
       | some (raw, none) => some raw
       | _ => none)) with
  | .exn e =>
    SingleResult.mk false
      [Issue.mk "flow" "cli" ("Request failed: " ++ e) (method ++ " " ++ url) none none]
      none none
  | .ok resp =>
    if (singleStatusIssues method url expectedStatus resp).isEmpty then
      match extractArg with
      | some (.error e) =>
        SingleResult.mk false
          [Issue.mk "flow" "cli" ("Invalid extract JSON: " ++ e) (method ++ " " ++ url) none none]
          (some resp) none
      | some (.ok cfg) =>
        match extractResponseData resp.json resp.text cfg with
        | .ok ext => SingleResult.mk true [] (some resp) (some ext)
        | .error msg =>
          SingleResult.mk false
            [Issue.mk "flow" "cli" ("Unexpected error: " ++ msg) (method ++ " " ++ url)
              none none]
            (some resp) none
      | none => SingleResult.mk true [] (some resp) none
    else SingleResult.mk false (singleStatusIssues method url expectedStatus resp)
      (some resp) none

/-- `run_single_test(method, url, base_url, ...)`.  The `--headers`,
`--body` and `--extract` CLI strings are modelled by the outcome of
`json.loads` on them (`Except.error` carrying `str(e)`); an absent or
empty (falsy) argument is `none`.  An unparsable headers argument
aborts before any request with a single setup issue. -/
def runSingleTest (method url : String) (baseUrl : String) (expectedStatus : Int)
    (body : Option (String × Option PyVal))
    (headersArg : Option (Except String (List (String × String))))
    (extractArg : Option (Except String (List (String × String))))
    (timeout : Int) (http : Request → ReqOutcome) : SingleResult :=
  match headersArg with
  | some (.error e) =>
    SingleResult.mk false
      [Issue.mk "flow" "cli" ("Invalid headers JSON: " ++ e) "setup" none none] none none
  | some (.ok hs) =>
    runSingleRequestPhase method url baseUrl expectedStatus body hs extractArg timeout http
  | none =>
    runSingleRequestPhase method url baseUrl expectedStatus body [] extractArg timeout http


/-- All steps of a list proceed without halting, threading the variable
store exactly as the loop does (an observation used to state which step
is the first to fail). -/
def chainOk (baseUrl : String) (http : HttpOracle) : List Step → Nat → Vars → Bool
  | [], _, _ => true
  | step :: rest, idx, vars =>
    !stepHalts step (http idx (buildRequest baseUrl step vars)) &&
      chainOk baseUrl http rest (idx + 1)
        (stepNext step (http idx (buildRequest baseUrl step vars)) vars)

/-- The variable store after a list of non-halting steps. -/
def chainVars (baseUrl : String) (http : HttpOracle) : List Step → Nat → Vars → Vars
  | [], _, vars => vars
  | step :: rest, idx, vars =>
    chainVars baseUrl http rest (idx + 1)
      (stepNext step (http idx (buildRequest baseUrl step vars)) vars)

/-! ### Concrete scenario objects used to evaluate the engine on
specific inputs. -/

/-- A trivial step whose default expectation (status 200) a 200
response satisfies. -/
def c1StepA : Step :=
  Step.mk none none (some "/a") [] none none (Expectation.mk none none none none) none

/-- A named second step. -/
def c1StepB : Step :=
  Step.mk (some "second") none (some "/b") [] none none (Expectation.mk none none none none) none

/-- A network where the first request succeeds with a bare 200 and every
later one raises. -/
def c1Http : HttpOracle := fun idx _ =>
  if idx == 0 then .ok (Response.mk 200 [] "" none 1) else .exn "boom"

/-- A 200 response whose JSON body is the nested value of the
extraction-safety example. -/
def c4Resp : Response :=
  Response.mk 200 [] "" (some (.dict [(PyKey.s "a", .dict [(PyKey.s "b",
    .list [.int 1, .int 2])])])) 1

/-- A step extracting along the failing path "a.b.5". -/
def c4Step : Step :=
  Step.mk none none (some "/a") [] none none (Expectation.mk none none none none)
    (some [("v", "a.b.5")])

/-- A network always answering with the nested-body 200 response. -/
def c4Http : HttpOracle := fun _ _ => .ok c4Resp

/-- A step extracting along a path that cannot resolve. -/
def c5Step : Step :=
  Step.mk none none (some "/a") [] none none (Expectation.mk none none none none)
    (some [("v", "missing.path")])

/-- A network always answering a bare 200. -/
def c5Http : HttpOracle := fun _ _ => .ok (Response.mk 200 [] "" none 1)

/-- A segment on which the digit-guarded branch cannot raise: either
not digit-classified at all, or a decimal string `int()` accepts. -/
def segSafe (seg : String) : Bool :=
  !strIsDigit seg || strIsDecimal seg

/-- A step extracting along a one-segment path consisting of the
superscript-two character, which `str.isdigit` accepts and `int()`
rejects. -/
def c4BadStep : Step :=
  Step.mk none none (some "/a") [] none none (Expectation.mk none none none none)
    (some [("v", "²")])

/-! ### Helper lemmas. -/

theorem String.data_append_eq (a b : String) : (a ++ b).data = a.data ++ b.data := by
  cases a
  cases b
  rfl

theorem isPrefixOf_append_eq (l t : List Char) : l.isPrefixOf (l ++ t) = true := by
  induction l with
  | nil => simp [List.isPrefixOf]
  | cons c cs ih => simp [List.isPrefixOf, ih]

theorem placeholder_data_eq (k : String) :
    (placeholder k).data = '\x7b' :: '\x7b' :: (k.data ++ ['\x7d', '\x7d']) := by
  cases k
  rfl

theorem placeholder_data_ne_nil (k : String) : (placeholder k).data ≠ [] := by
  rw [placeholder_data_eq]
  simp

theorem replaceFuel_nil (fuel : Nat) (pat rep : List Char) :
    replaceFuel fuel [] pat rep = [] := by
  cases fuel <;> rfl

theorem replaceFuel_cons_pos (n : Nat) (c : Char) (rest pat rep : List Char)
    (h : pat.isPrefixOf (c :: rest) = true) :
    replaceFuel (n + 1) (c :: rest) pat rep =
      rep ++ replaceFuel n ((c :: rest).drop pat.length) pat rep := by
  simp [replaceFuel, h]

theorem replaceFuel_cons_neg (n : Nat) (c : Char) (rest pat rep : List Char)
    (h : pat.isPrefixOf (c :: rest) = false) :
    replaceFuel (n + 1) (c :: rest) pat rep = c :: replaceFuel n rest pat rep := by
  simp [replaceFuel, h]

theorem replaceFuel_no_occ (pat rep : List Char) :
    ∀ (l : List Char) (fuel : Nat), containsSubL pat l = false → replaceFuel fuel l pat rep = l := by
  intro l
  induction l with
  | nil => intro fuel _; exact replaceFuel_nil fuel pat rep
  | cons c rest ih =>
    intro fuel h
    have h2 : pat.isPrefixOf (c :: rest) = false ∧ containsSubL pat rest = false := by
      simpa [containsSubL] using h
    cases fuel with
    | zero => rfl
    | succ n =>
      rw [replaceFuel_cons_neg n c rest pat rep h2.1, ih n h2.2]

theorem replaceFuel_fuel_irrel (pat rep : List Char) (hp : pat ≠ []) :
    ∀ (f1 : Nat) (l : List Char) (f2 : Nat), l.length < f1 → l.length < f2 →
      replaceFuel f1 l pat rep = replaceFuel f2 l pat rep := by
  intro f1
  induction f1 with
  | zero => intro l f2 h1 _; exact absurd h1 (by omega)
  | succ n ih =>
    intro l f2 h1 h2
    cases l with
    | nil => rw [replaceFuel_nil, replaceFuel_nil]
    | cons c rest =>
      cases f2 with
      | zero => exact absurd h2 (by omega)
      | succ m =>
        have hplen : 1 ≤ pat.length := by
          cases pat with
          | nil => exact absurd rfl hp
          | cons p ps => simp
        simp only [List.length_cons] at h1 h2
        cases hpre : pat.isPrefixOf (c :: rest) with
        | true =>
          rw [replaceFuel_cons_pos n c rest pat rep hpre,
            replaceFuel_cons_pos m c rest pat rep hpre,
            ih ((c :: rest).drop pat.length) m
              (by simp only [List.length_drop, List.length_cons]; omega)
              (by simp only [List.length_drop, List.length_cons]; omega)]
        | false =>
          rw [replaceFuel_cons_neg n c rest pat rep hpre,
            replaceFuel_cons_neg m c rest pat rep hpre,
            ih rest m (by omega) (by omega)]

theorem replaceFuel_front (pat b rep : List Char) (hp : pat ≠ []) (fuel : Nat) :
    replaceFuel (fuel + 1) (pat ++ b) pat rep = rep ++ replaceFuel fuel b pat rep := by
  cases pat with
  | nil => exact absurd rfl hp
  | cons p ps =>
    have hpre : (p :: ps).isPrefixOf (p :: (ps ++ b)) = true := by
      rw [← List.cons_append]
      exact isPrefixOf_append_eq (p :: ps) b
    have hdrop : (p :: (ps ++ b)).drop (p :: ps).length = b := by
      rw [← List.cons_append]
      exact List.drop_left (p :: ps) b
    show replaceFuel (fuel + 1) (p :: (ps ++ b)) (p :: ps) rep = _
    rw [replaceFuel_cons_pos fuel p (ps ++ b) (p :: ps) rep hpre, hdrop]

theorem pyReplace_no_occ (s pat rep : String) (h : containsSub pat s = false) :
    pyReplace s pat rep = s := by
  unfold pyReplace
  rw [replaceFuel_no_occ pat.data rep.data s.data _ h]

theorem pyReplace_front (pat b rep : String) (hp : pat.data ≠ []) :
    pyReplace (pat ++ b) pat rep = rep ++ pyReplace b pat rep := by
  unfold pyReplace
  have hd : (pat ++ b).data = pat.data ++ b.data := String.data_append_eq pat b
  have hplen : 1 ≤ pat.data.length := by
    cases hq : pat.data with
    | nil => exact absurd hq hp
    | cons x xs => simp
  calc String.mk (replaceFuel ((pat ++ b).data.length + 1) (pat ++ b).data pat.data rep.data)
      = String.mk (replaceFuel (pat.data.length + b.data.length + 1)
          (pat.data ++ b.data) pat.data rep.data) := by
        rw [hd]
        simp
    _ = String.mk (rep.data ++ replaceFuel (pat.data.length + b.data.length)
          b.data pat.data rep.data) := by
        rw [replaceFuel_front pat.data b.data rep.data hp]
    _ = String.mk (rep.data ++ replaceFuel (b.data.length + 1) b.data pat.data rep.data) := by
        rw [replaceFuel_fuel_irrel pat.data rep.data hp (pat.data.length + b.data.length)
          b.data (b.data.length + 1) (by omega) (by omega)]
    _ = rep ++ String.mk (replaceFuel (b.data.length + 1) b.data pat.data rep.data) := by
        cases rep
        rfl

theorem pyReplace_self (pat rep : String) (hp : pat.data ≠ []) :
    pyReplace pat pat rep = rep := by
  have h1 : pyReplace (pat ++ "") pat rep = rep ++ pyReplace "" pat rep :=
    pyReplace_front pat "" rep hp
  have h2 : pat ++ "" = pat := by
    cases pat
    show String.mk (_ ++ []) = _
    simp
  have h3 : pyReplace "" pat rep = "" := by
    unfold pyReplace
    rfl
  rw [h2] at h1
  rw [h1, h3]
  cases rep
  show String.mk (_ ++ []) = _
  simp

theorem substString_nil (s : String) : substString s [] = s := rfl

theorem substString_cons (s : String) (k : String) (v : PyVal) (rest : List (String × PyVal)) :
    substString s ((k, v) :: rest) = substString (pyReplace s (placeholder k) (pyStr v)) rest := rfl

theorem stepIssueList_ne_nil (collection : String) (idx : Nat) (step : Step)
    (outcome : ReqOutcome) (h : stepHalts step outcome = true) :
    stepIssueList collection idx step outcome ≠ [] := by
  cases outcome with
  | exn e => simp [stepIssueList]
  | ok resp =>
    cases hv : (validateResponse resp step.expect).isEmpty with
    | true =>
      have hx : (stepExtractError step resp).isSome = true := by
        simpa [stepHalts, hv] using h
      obtain ⟨msg, hmsg⟩ := Option.isSome_iff_exists.mp hx
      simp [stepIssueList, hv, hmsg]
    | false =>
      have hvne : validateResponse resp step.expect ≠ [] := by
        intro hc
        rw [hc] at hv
        simp at hv
      simp only [stepIssueList, hv, Bool.false_eq_true, if_false, ne_eq, List.map_eq_nil_iff]
      exact hvne

theorem stepIssueList_fields (collection : String) (idx : Nat) (step : Step)
    (outcome : ReqOutcome) :
    ∀ i ∈ stepIssueList collection idx step outcome,
      i.itype = "flow" ∧ i.location = stepLocation collection idx ∧
      i.step = stepNameOf step idx := by
  intro i hi
  cases outcome with
  | exn e =>
    simp only [stepIssueList, List.mem_singleton] at hi
    subst hi
    exact ⟨rfl, rfl, rfl⟩
  | ok resp =>
    cases hv : (validateResponse resp step.expect).isEmpty with
    | true =>
      simp only [stepIssueList, hv, if_true] at hi
      cases hx : stepExtractError step resp with
      | none =>
        rw [hx] at hi
        simp at hi
      | some msg =>
        rw [hx] at hi
        simp only [List.mem_singleton] at hi
        subst hi
        exact ⟨rfl, rfl, rfl⟩
    | false =>
      simp only [stepIssueList, hv, Bool.false_eq_true, if_false, List.mem_map] at hi
      obtain ⟨err, _, he⟩ := hi
      subst he
      exact ⟨rfl, rfl, rfl⟩

theorem runSteps_nil (collection baseUrl : String) (http : HttpOracle) (idx : Nat) (vars : Vars) :
    runSteps collection baseUrl http [] idx vars = StepsOut.mk [] true vars [] [] := rfl

theorem runSteps_cons_halt (collection baseUrl : String) (http : HttpOracle) (step : Step)
    (rest : List Step) (idx : Nat) (vars : Vars)
    (h : stepHalts step (http idx (buildRequest baseUrl step vars)) = true) :
    runSteps collection baseUrl http (step :: rest) idx vars =
      StepsOut.mk (stepIssueList collection idx step (http idx (buildRequest baseUrl step vars)))
        false vars [idx] [vars] := by
  simp [runSteps, h]

theorem runSteps_cons_cont (collection baseUrl : String) (http : HttpOracle) (step : Step)
    (rest : List Step) (idx : Nat) (vars : Vars)
    (h : stepHalts step (http idx (buildRequest baseUrl step vars)) = false) :
    runSteps collection baseUrl http (step :: rest) idx vars =
      (let out := runSteps collection baseUrl http rest (idx + 1)
        (stepNext step (http idx (buildRequest baseUrl step vars)) vars)
       StepsOut.mk out.issues out.success out.finalVars (idx :: out.executed)
        (vars :: out.varsTrace)) := by
  simp [runSteps, h]

theorem runSteps_success_iff (collection baseUrl : String) (http : HttpOracle) :
    ∀ (steps : List Step) (idx : Nat) (vars : Vars),
      (runSteps collection baseUrl http steps idx vars).success = true ↔
      (runSteps collection baseUrl http steps idx vars).issues = [] := by
  intro steps
  induction steps with
  | nil => intro idx vars; simp [runSteps_nil]
  | cons step rest ih =>
    intro idx vars
    cases hh : stepHalts step (http idx (buildRequest baseUrl step vars)) with
    | true =>
      rw [runSteps_cons_halt collection baseUrl http step rest idx vars hh]
      simp only []
      constructor
      · intro hc; exact absurd hc (by simp)
      · intro hc
        exact absurd hc (stepIssueList_ne_nil collection idx step _ hh)
    | false =>
      rw [runSteps_cons_cont collection baseUrl http step rest idx vars hh]
      exact ih (idx + 1) _

theorem runSteps_trace_head (collection baseUrl : String) (http : HttpOracle)
    (steps : List Step) (idx : Nat) (vars : Vars) (hne : steps ≠ []) :
    (runSteps collection baseUrl http steps idx vars).varsTrace.head? = some vars := by
  cases steps with
  | nil => exact absurd rfl hne
  | cons step rest =>
    cases hh : stepHalts step (http idx (buildRequest baseUrl step vars)) with
    | true =>
      rw [runSteps_cons_halt collection baseUrl http step rest idx vars hh]
      rfl
    | false =>
      rw [runSteps_cons_cont collection baseUrl http step rest idx vars hh]
      rfl

theorem varKeys_setVar_superset (vars : Vars) (key : String) (v : PyVal) :
    ∀ k, k ∈ varKeys vars → k ∈ varKeys (setVar vars key v) := by
  intro k hk
  simp only [varKeys, List.mem_map] at hk
  obtain ⟨p, hp, hpk⟩ := hk
  unfold setVar
  by_cases ha : vars.any (fun p => p.1 == key) = true
  · rw [if_pos ha]
    simp only [varKeys, List.map_map, List.mem_map]
    refine ⟨p, hp, ?_⟩
    by_cases he : p.1 == key
    · have hkey : p.1 = key := by simpa using he
      simp only [Function.comp, he, if_true]
      rw [← hpk, hkey]
    · simp only [Function.comp, he]
      simp only [Bool.false_eq_true, if_false]
      exact hpk
  · rw [if_neg ha]
    simp only [varKeys, List.map_append, List.mem_append]
    left
    exact List.mem_map.mpr ⟨p, hp, hpk⟩

theorem varKeys_setVar_self (vars : Vars) (key : String) (v : PyVal) :
    key ∈ varKeys (setVar vars key v) := by
  unfold setVar
  by_cases ha : vars.any (fun p => p.1 == key) = true
  · rw [if_pos ha]
    simp only [varKeys, List.map_map, List.mem_map]
    rw [List.any_eq_true] at ha
    obtain ⟨p, hp, hpk⟩ := ha
    refine ⟨p, hp, ?_⟩
    simp only [Function.comp, hpk, if_true]
  · rw [if_neg ha]
    simp only [varKeys, List.map_append, List.mem_append]
    right
    simp

theorem varKeys_updateVars_superset (extracted : Vars) :
    ∀ (vars : Vars) (k : String), k ∈ varKeys vars → k ∈ varKeys (updateVars vars extracted) := by
  induction extracted with
  | nil => intro vars k hk; exact hk
  | cons kv rest ih =>
    intro vars k hk
    exact ih (setVar vars kv.1 kv.2) k (varKeys_setVar_superset vars kv.1 kv.2 k hk)

theorem keysGrow_updateVars (vars extracted : Vars) :
    ∀ k, k ∈ varKeys vars → k ∈ varKeys (updateVars vars extracted) := by
  intro k
  exact varKeys_updateVars_superset extracted vars k

theorem varKeys_updateVars_mem (extracted : Vars) :
    ∀ (vars : Vars) (k : String), k ∈ varKeys extracted →
      k ∈ varKeys (updateVars vars extracted) := by
  induction extracted with
  | nil => intro vars k hk; simp [varKeys] at hk
  | cons kv rest ih =>
    intro vars k hk
    simp only [varKeys, List.map_cons, List.mem_cons] at hk
    cases hk with
    | inl h =>
      subst h
      show kv.1 ∈ varKeys (updateVars (setVar vars kv.1 kv.2) rest)
      exact varKeys_updateVars_superset rest (setVar vars kv.1 kv.2) kv.1
        (varKeys_setVar_self vars kv.1 kv.2)
    | inr h => exact ih (setVar vars kv.1 kv.2) k h

theorem extractResponseData_names (respJson : Option PyVal) (respText : String) :
    ∀ (cfg : List (String × String)) (ext : List (String × PyVal)),
      extractResponseData respJson respText cfg = .ok ext →
      ext.map Prod.fst = cfg.map Prod.fst := by
  intro cfg
  induction cfg with
  | nil =>
    intro ext h
    simp only [extractResponseData, Except.ok.injEq] at h
    subst h
    rfl
  | cons kv rest ih =>
    intro ext h
    obtain ⟨nm, p⟩ := kv
    simp only [extractResponseData] at h
    cases hl : pathLookup (extractionData respJson respText) (splitDots p) with
    | uncaught msg =>
      rw [hl] at h
      simp at h
    | val v =>
      rw [hl] at h
      cases hr : extractResponseData respJson respText rest with
      | error m =>
        rw [hr] at h
        simp [Except.map] at h
      | ok ext2 =>
        rw [hr] at h
        simp only [Except.map, Except.ok.injEq] at h
        subst h
        simp only [List.map_cons]
        rw [ih ext2 hr]
    | caught =>
      rw [hl] at h
      cases hr : extractResponseData respJson respText rest with
      | error m =>
        rw [hr] at h
        simp [Except.map] at h
      | ok ext2 =>
        rw [hr] at h
        simp only [Except.map, Except.ok.injEq] at h
        subst h
        simp only [List.map_cons]
        rw [ih ext2 hr]


theorem range_map_shift (idx n : Nat) :
    (List.range (n + 1 + 1)).map (fun j => idx + j) =
      idx :: (List.range (n + 1)).map (fun j => (idx + 1) + j) := by
  rw [List.range_succ_eq_map, List.map_cons, List.map_map]
  refine congrArg₂ List.cons (by omega) ?_
  apply List.map_congr_left
  intro a _
  simp only [Function.comp]
  omega

theorem runSteps_first_bad (collection baseUrl : String) (http : HttpOracle)
    (bad : Step) (post : List Step) :
    ∀ (pre : List Step) (idx : Nat) (vars : Vars),
      chainOk baseUrl http pre idx vars = true →
      stepHalts bad (http (idx + pre.length)
        (buildRequest baseUrl bad (chainVars baseUrl http pre idx vars))) = true →
      (runSteps collection baseUrl http (pre ++ bad :: post) idx vars).issues =
        stepIssueList collection (idx + pre.length) bad
          (http (idx + pre.length)
            (buildRequest baseUrl bad (chainVars baseUrl http pre idx vars))) ∧
      (runSteps collection baseUrl http (pre ++ bad :: post) idx vars).executed =
        (List.range (pre.length + 1)).map (fun j => idx + j) ∧
      (runSteps collection baseUrl http (pre ++ bad :: post) idx vars).success = false := by
  intro pre
  induction pre with
  | nil =>
    intro idx vars hok hbad
    simp only [List.length_nil, Nat.add_zero, chainVars] at hbad
    simp only [List.nil_append, List.length_nil, Nat.add_zero, chainVars]
    rw [runSteps_cons_halt collection baseUrl http bad post idx vars hbad]
    refine ⟨rfl, ?_, rfl⟩
    show [idx] = List.map (fun j => idx + j) (List.range 1)
    rfl
  | cons step pre2 ih =>
    intro idx vars hok hbad
    have hok2 : stepHalts step (http idx (buildRequest baseUrl step vars)) = false ∧
        chainOk baseUrl http pre2 (idx + 1)
          (stepNext step (http idx (buildRequest baseUrl step vars)) vars) = true := by
      have h := hok
      simp only [chainOk, Bool.and_eq_true, Bool.not_eq_true'] at h
      exact h
    have hcv : chainVars baseUrl http (step :: pre2) idx vars =
        chainVars baseUrl http pre2 (idx + 1)
          (stepNext step (http idx (buildRequest baseUrl step vars)) vars) := rfl
    have harith : idx + (step :: pre2).length = (idx + 1) + pre2.length := by
      simp only [List.length_cons]
      omega
    rw [hcv, harith] at hbad
    have ihr := ih (idx + 1) (stepNext step (http idx (buildRequest baseUrl step vars)) vars)
      hok2.2 hbad
    rw [List.cons_append,
      runSteps_cons_cont collection baseUrl http step (pre2 ++ bad :: post) idx vars hok2.1]
    simp only []
    refine ⟨?_, ?_, ?_⟩
    · rw [ihr.1, hcv, harith]
    · rw [ihr.2.1]
      simp only [List.length_cons]
      rw [range_map_shift idx pre2.length]
    · exact ihr.2.2

theorem stepNext_keysGrow (step : Step) (outcome : ReqOutcome) (vars : Vars) :
    ∀ k, k ∈ varKeys vars → k ∈ varKeys (stepNext step outcome vars) := by
  intro k hk
  cases outcome with
  | exn e => exact hk
  | ok resp =>
    show k ∈ varKeys (if (validateResponse resp step.expect).isEmpty then
      (match step.extract with
       | some cfg =>
         (match extractResponseData resp.json resp.text cfg with
          | .ok ext => updateVars vars ext
          | .error _ => vars)
       | none => vars)
      else vars)
    by_cases hv : (validateResponse resp step.expect).isEmpty = true
    · rw [if_pos hv]
      cases hx : step.extract with
      | none => exact hk
      | some cfg =>
        show k ∈ varKeys (match extractResponseData resp.json resp.text cfg with
          | .ok ext => updateVars vars ext
          | .error _ => vars)
        cases he : extractResponseData resp.json resp.text cfg with
        | ok ext => exact keysGrow_updateVars vars ext k hk
        | error m => exact hk
    · rw [if_neg hv]
      exact hk

theorem runSteps_chain_keysGrow (collection baseUrl : String) (http : HttpOracle) :
    ∀ (steps : List Step) (idx : Nat) (vars : Vars),
      List.Chain' (fun a b => ∀ k, k ∈ varKeys a → k ∈ varKeys b)
        ((runSteps collection baseUrl http steps idx vars).varsTrace ++
          [(runSteps collection baseUrl http steps idx vars).finalVars]) := by
  intro steps
  induction steps with
  | nil =>
    intro idx vars
    rw [runSteps_nil]
    simp
  | cons step rest ih =>
    intro idx vars
    cases hh : stepHalts step (http idx (buildRequest baseUrl step vars)) with
    | true =>
      rw [runSteps_cons_halt collection baseUrl http step rest idx vars hh]
      simp only [List.cons_append, List.nil_append]
      rw [List.chain'_cons]
      exact ⟨fun k hk => hk, by simp⟩
    | false =>
      rw [runSteps_cons_cont collection baseUrl http step rest idx vars hh]
      simp only [List.cons_append]
      rw [List.chain'_cons']
      refine ⟨?_, ih (idx + 1) (stepNext step (http idx (buildRequest baseUrl step vars)) vars)⟩
      intro y hy
      cases rest with
      | nil =>
        simp only [runSteps_nil, List.nil_append, List.head?_cons, Option.mem_def,
          Option.some.injEq] at hy
        subst hy
        exact stepNext_keysGrow step _ vars
      | cons r rs =>
        have hhead := runSteps_trace_head collection baseUrl http (r :: rs) (idx + 1)
          (stepNext step (http idx (buildRequest baseUrl step vars)) vars) (by simp)
        cases ht : (runSteps collection baseUrl http (r :: rs) (idx + 1)
            (stepNext step (http idx (buildRequest baseUrl step vars)) vars)).varsTrace with
        | nil => rw [ht] at hhead; simp at hhead
        | cons v0 vt =>
          rw [ht] at hhead hy
          simp only [List.head?_cons, Option.some.injEq] at hhead
          simp only [List.cons_append, List.head?_cons, Option.mem_def, Option.some.injEq] at hy
          subst hy
          rw [hhead]
          exact stepNext_keysGrow step _ vars

theorem runSteps_trace_link (collection baseUrl : String) (http : HttpOracle) :
    ∀ (steps : List Step) (idx : Nat) (vars : Vars) (j : Nat) (a b : Vars) (step0 : Step),
      (runSteps collection baseUrl http steps idx vars).varsTrace.get? j = some a →
      (runSteps collection baseUrl http steps idx vars).varsTrace.get? (j + 1) = some b →
      steps.get? j = some step0 →
      b = stepNext step0 (http (idx + j) (buildRequest baseUrl step0 a)) a := by
  intro steps
  induction steps with
  | nil =>
    intro idx vars j a b step0 h1 _ _
    rw [runSteps_nil] at h1
    simp at h1
  | cons step rest ih =>
    intro idx vars j a b step0 h1 h2 h3
    cases hh : stepHalts step (http idx (buildRequest baseUrl step vars)) with
    | true =>
      rw [runSteps_cons_halt collection baseUrl http step rest idx vars hh] at h2
      simp at h2
    | false =>
      rw [runSteps_cons_cont collection baseUrl http step rest idx vars hh] at h1 h2
      cases j with
      | zero =>
        simp only [List.get?_cons_zero, Option.some.injEq] at h1 h3
        simp only [List.get?_cons_succ] at h2
        rw [← h1, ← h3, Nat.add_zero]
        cases rest with
        | nil => simp only [runSteps_nil] at h2; simp at h2
        | cons r rs =>
          have hhead := runSteps_trace_head collection baseUrl http (r :: rs) (idx + 1)
            (stepNext step (http idx (buildRequest baseUrl step vars)) vars) (by simp)
          cases ht : (runSteps collection baseUrl http (r :: rs) (idx + 1)
              (stepNext step (http idx (buildRequest baseUrl step vars)) vars)).varsTrace with
          | nil => rw [ht] at hhead; simp at hhead
          | cons v0 vt =>
            rw [ht] at hhead h2
            simp only [List.head?_cons, Option.some.injEq] at hhead
            simp only [List.get?_cons_zero, Option.some.injEq] at h2
            rw [← h2]
            exact hhead
      | succ j2 =>
        simp only [List.get?_cons_succ] at h1 h2 h3
        have := ih (idx + 1) (stepNext step (http idx (buildRequest baseUrl step vars)) vars)
          j2 a b step0 h1 h2 h3
        rw [this]
        have harith : (idx + 1) + j2 = idx + (j2 + 1) := by omega
        rw [harith]

/-! ### Lemmas about the engine used by the claim theorems. -/

theorem singlePhase_success_iff (method url baseUrl : String) (expectedStatus : Int)
    (body : Option (String × Option PyVal)) (requestHeaders : List (String × String))
    (extractArg : Option (Except String (List (String × String))))
    (timeout : Int) (http : Request → ReqOutcome) :
    (runSingleRequestPhase method url baseUrl expectedStatus body requestHeaders extractArg
      timeout http).success = true ↔
    (runSingleRequestPhase method url baseUrl expectedStatus body requestHeaders extractArg
      timeout http).issues = [] := by
  unfold runSingleRequestPhase
  generalize http _ = outc
  cases outc with
  | exn e => simp
  | ok resp =>
    cases hse : (singleStatusIssues method url expectedStatus resp).isEmpty with
    | true =>
      simp only [hse, if_true]
      cases extractArg with
      | none => simp
      | some x => cases x with
        | error e => simp
        | ok cfg =>
          cases he : extractResponseData resp.json resp.text cfg with
          | ok ext => simp [he]
          | error m => simp [he]
    | false =>
      simp only [hse, Bool.false_eq_true, if_false]
      constructor
      · intro hc; simp at hc
      · intro hc
        rw [hc] at hse
        simp at hse

theorem dropWhile_head_not (p : Char → Bool) :
    ∀ (l : List Char) (a : Char), (l.dropWhile p).head? = some a → p a = false := by
  intro l
  induction l with
  | nil => intro a h; simp at h
  | cons c rest ih =>
    intro a h
    cases hc : p c with
    | true =>
      rw [List.dropWhile_cons_of_pos hc] at h
      exact ih a h
    | false =>
      rw [List.dropWhile_cons_of_neg (by simp [hc])] at h
      simp only [List.head?_cons, Option.some.injEq] at h
      rw [← h]
      exact hc

theorem dictGet_int_none_of_str_keys (n : Int) :
    ∀ (es : List (PyKey × PyVal)), (∀ p ∈ es, ∃ sk, p.1 = PyKey.s sk) →
      dictGet es (.i n) = none := by
  intro es
  induction es with
  | nil => intro _; rfl
  | cons kv rest ih =>
    intro h
    obtain ⟨sk, hsk⟩ := h kv (by simp)
    show dictGet ((kv.1, kv.2) :: rest) (.i n) = none
    unfold dictGet
    rw [hsk]
    rw [if_neg (by simp)]
    exact ih (fun p hp => h p (by simp [hp]))

theorem length_filterMap_eq (f : α → Option β) :
    ∀ l : List α, (l.filterMap f).length = (l.filter (fun x => (f x).isSome)).length := by
  intro l
  induction l with
  | nil => rfl
  | cons x rest ih =>
    cases hf : f x with
    | none => simp [List.filterMap_cons, List.filter_cons, hf, ih]
    | some b => simp [List.filterMap_cons, List.filter_cons, hf, ih]

theorem runFlow_ok (collection baseUrl : String) (name desc : Option String) (seed : Vars)
    (steps : List Step) (http : HttpOracle) (hne : steps.isEmpty = false) :
    runFlow collection baseUrl (.ok (Collection.mk name desc seed steps)) http =
      (let out := runSteps collection baseUrl http steps 0 (setVar seed "base_url" (.str baseUrl))
       FlowRun.mk
        (FlowResult.mk out.success out.issues
          (if out.success then
            some ("Successfully executed " ++ toString steps.length ++ " steps in flow \x27" ++
              name.getD "Unnamed Flow" ++ "\x27")
          else none))
        out.executed out.varsTrace out.finalVars) := by
  simp [runFlow, hne]

theorem strIsDigit_of_decimal (seg : String) (h : strIsDecimal seg = true) :
    strIsDigit seg = true := by
  unfold strIsDecimal at h
  unfold strIsDigit
  simp only [Bool.and_eq_true] at h ⊢
  refine ⟨h.1, ?_⟩
  rw [List.all_eq_true] at h ⊢
  intro c hc
  have := h.2 c hc
  simp only [pyDigitChar, Bool.or_eq_true]
  exact Or.inl (Or.inl (Or.inl this))

theorem subscriptRes_not_uncaught (o : Option PyVal) (msg : String) :
    subscriptRes o ≠ PathRes.uncaught msg := by
  cases o <;> simp [subscriptRes]

theorem pathStep_not_uncaught (v : PyVal) (seg : String) (h : segSafe seg = true)
    (msg : String) : pathStep v seg ≠ PathRes.uncaught msg := by
  unfold pathStep
  cases hd : strIsDigit seg with
  | false =>
    rw [if_neg (by simp)]
    exact subscriptRes_not_uncaught _ msg
  | true =>
    have hdec : strIsDecimal seg = true := by
      unfold segSafe at h
      rw [hd] at h
      simpa using h
    rw [if_pos rfl]
    have hi : intOfDigitStr seg = some (digitsToNat seg) := by
      unfold intOfDigitStr
      rw [if_pos hdec]
    rw [hi]
    exact subscriptRes_not_uncaught _ msg

theorem pathLookup_not_uncaught :
    ∀ (segs : List String) (v : PyVal), (∀ seg ∈ segs, segSafe seg = true) →
      ∀ msg, pathLookup v segs ≠ PathRes.uncaught msg := by
  intro segs
  induction segs with
  | nil =>
    intro v _ msg
    simp [pathLookup]
  | cons seg rest ih =>
    intro v h msg
    unfold pathLookup
    cases hs : pathStep v seg with
    | val v2 => exact ih v2 (fun s hs2 => h s (by simp [hs2])) msg
    | caught => simp
    | uncaught m => exact absurd hs (pathStep_not_uncaught v seg (h seg (by simp)) m)

theorem extract_ok_of_safe (respJson : Option PyVal) (respText : String) :
    ∀ (cfg : List (String × String)),
      (∀ p ∈ cfg, ∀ seg ∈ splitDots p.2, segSafe seg = true) →
      ∃ ext, extractResponseData respJson respText cfg = .ok ext ∧
        ext.map Prod.fst = cfg.map Prod.fst := by
  intro cfg
  induction cfg with
  | nil =>
    intro _
    exact ⟨[], rfl, rfl⟩
  | cons kv rest ih =>
    intro h
    obtain ⟨nm, p⟩ := kv
    obtain ⟨ext2, hok, hnames⟩ := ih (fun q hq => h q (by simp [hq]))
    have hsafe : ∀ seg ∈ splitDots p, segSafe seg = true := h (nm, p) (by simp)
    simp only [extractResponseData]
    cases hl : pathLookup (extractionData respJson respText) (splitDots p) with
    | uncaught m => exact absurd hl (pathLookup_not_uncaught _ _ hsafe m)
    | val v =>
      refine ⟨(nm, v) :: ext2, ?_, ?_⟩
      · rw [hok]
        rfl
      · simp [hnames]
    | caught =>
      refine ⟨(nm, PyVal.null) :: ext2, ?_, ?_⟩
      · rw [hok]
        rfl
      · simp [hnames]

theorem extract_null_mem (respJson : Option PyVal) (respText : String) :
    ∀ (cfg : List (String × String)) (ext : List (String × PyVal)) (nm p : String),
      extractResponseData respJson respText cfg = .ok ext →
      (nm, p) ∈ cfg →
      pathLookup (extractionData respJson respText) (splitDots p) = PathRes.caught →
      (nm, PyVal.null) ∈ ext := by
  intro cfg
  induction cfg with
  | nil =>
    intro ext nm p _ hmem _
    simp at hmem
  | cons kv rest ih =>
    intro ext nm p hok hmem hcaught
    obtain ⟨nm0, p0⟩ := kv
    simp only [extractResponseData] at hok
    rcases List.mem_cons.mp hmem with hhead | htail
    · injection hhead with e1 e2
      subst e1
      subst e2
      rw [hcaught] at hok
      cases hr : extractResponseData respJson respText rest with
      | error m =>
        rw [hr] at hok
        simp [Except.map] at hok
      | ok ext2 =>
        rw [hr] at hok
        simp only [Except.map, Except.ok.injEq] at hok
        subst hok
        exact List.mem_cons_self _ _
    · cases hl : pathLookup (extractionData respJson respText) (splitDots p0) with
      | uncaught m =>
        rw [hl] at hok
        simp at hok
      | val v =>
        rw [hl] at hok
        cases hr : extractResponseData respJson respText rest with
        | error m =>
          rw [hr] at hok
          simp [Except.map] at hok
        | ok ext2 =>
          rw [hr] at hok
          simp only [Except.map, Except.ok.injEq] at hok
          subst hok
          exact List.mem_cons_of_mem _ (ih ext2 nm p hr htail hcaught)
      | caught =>
        rw [hl] at hok
        cases hr : extractResponseData respJson respText rest with
        | error m =>
          rw [hr] at hok
          simp [Except.map] at hok
        | ok ext2 =>
          rw [hr] at hok
          simp only [Except.map, Except.ok.injEq] at hok
          subst hok
          exact List.mem_cons_of_mem _ (ih ext2 nm p hr htail hcaught)

/-! ### The claims. -/

/-- C1: fail-fast at the step level.  Decompose the steps as
pre ++ bad :: post where every step of pre proceeds without any issue
and bad — the step at 0-based index pre.length, i.e. step k =
pre.length + 1 in 1-based counting — is the first to produce one (a
request error or validation violations).  Then run_flow issues requests
exactly for steps 0..pre.length (so no step of post executes), returns
at least one issue, every returned issue carries step k's location and
step name (never a later step's), and success is false. -/
theorem C1_fail_fast_first_bad_step (collection baseUrl : String) (name desc : Option String)
    (seed : Vars) (pre : List Step) (bad : Step) (post : List Step) (http : HttpOracle)
    (hN : 2 ≤ (pre ++ bad :: post).length)
    (hpre : chainOk baseUrl http pre 0 (setVar seed "base_url" (.str baseUrl)) = true)
    (hbad : stepHalts bad (http pre.length (buildRequest baseUrl bad
      (chainVars baseUrl http pre 0 (setVar seed "base_url" (.str baseUrl))))) = true) :
    (runFlow collection baseUrl (.ok (Collection.mk name desc seed (pre ++ bad :: post)))
      http).executed = List.range (pre.length + 1) ∧
    (runFlow collection baseUrl (.ok (Collection.mk name desc seed (pre ++ bad :: post)))
      http).result.issues ≠ [] ∧
    (∀ i ∈ (runFlow collection baseUrl (.ok (Collection.mk name desc seed (pre ++ bad :: post)))
        http).result.issues,
      i.location = stepLocation collection pre.length ∧ i.step = stepNameOf bad pre.length) ∧
    (runFlow collection baseUrl (.ok (Collection.mk name desc seed (pre ++ bad :: post)))
      http).result.success = false := by
  have hne : (pre ++ bad :: post).isEmpty = false := by
    cases pre <;> rfl
  have hbad0 : stepHalts bad (http (0 + pre.length) (buildRequest baseUrl bad
      (chainVars baseUrl http pre 0 (setVar seed "base_url" (.str baseUrl))))) = true := by
    rw [Nat.zero_add]
    exact hbad
  have hfb := runSteps_first_bad collection baseUrl http bad post pre 0
    (setVar seed "base_url" (.str baseUrl)) hpre hbad0
  rw [runFlow_ok collection baseUrl name desc seed (pre ++ bad :: post) http hne]
  dsimp only
  refine ⟨?_, ?_, ?_, hfb.2.2⟩
  · rw [hfb.2.1]
    simp
  · rw [hfb.1]
    exact stepIssueList_ne_nil collection (0 + pre.length) bad _ hbad0
  · intro i hi
    rw [hfb.1] at hi
    have hf := stepIssueList_fields collection (0 + pre.length) bad _ i hi
    simp only [Nat.zero_add] at hf
    exact ⟨hf.2.1, hf.2.2⟩

theorem C1_witness :
    2 ≤ ([c1StepA] ++ c1StepB :: []).length ∧
    (runFlow "c" "http://h" (.ok (Collection.mk none none [] ([c1StepA] ++ c1StepB :: [])))
      c1Http).executed = List.range 2 ∧
    (runFlow "c" "http://h" (.ok (Collection.mk none none [] ([c1StepA] ++ c1StepB :: [])))
      c1Http).result.success = false := by
  have h := C1_fail_fast_first_bad_step "c" "http://h" none none [] [c1StepA] c1StepB []
    c1Http (by decide) (by decide) (by decide)
  exact ⟨by decide, h.1, h.2.2.2⟩

/-- C2: for every invocation of `run_flow` and of `run_single_test`, the
returned record has `success = true` exactly when its `issues` list is
empty. -/
theorem C2_success_iff_no_issues :
    (∀ (collection baseUrl : String) (load : LoadOutcome) (http : HttpOracle),
      (runFlow collection baseUrl load http).result.success = true ↔
      (runFlow collection baseUrl load http).result.issues = []) ∧
    (∀ (method url baseUrl : String) (expectedStatus : Int)
      (body : Option (String × Option PyVal))
      (headersArg extractArg : Option (Except String (List (String × String))))
      (timeout : Int) (http : Request → ReqOutcome),
      (runSingleTest method url baseUrl expectedStatus body headersArg extractArg
        timeout http).success = true ↔
      (runSingleTest method url baseUrl expectedStatus body headersArg extractArg
        timeout http).issues = []) := by
  constructor
  · intro collection baseUrl load http
    cases load with
    | ok cd =>
      cases hs : cd.steps.isEmpty with
      | true =>
        simp only [runFlow, hs, if_true]
        simp
      | false =>
        simp only [runFlow, hs]
        simp only [Bool.false_eq_true, if_false]
        exact runSteps_success_iff collection baseUrl http cd.steps 0 _
    | fileNotFound m => simp [runFlow]
    | yamlError m => simp [runFlow]
    | jsonError m => simp [runFlow]
    | otherError m => simp [runFlow]
  · intro method url baseUrl expectedStatus body headersArg extractArg timeout http
    cases headersArg with
    | none =>
      exact singlePhase_success_iff method url baseUrl expectedStatus body [] extractArg
        timeout http
    | some h =>
      cases h with
      | error e => simp [runSingleTest]
      | ok hs =>
        exact singlePhase_success_iff method url baseUrl expectedStatus body hs extractArg
          timeout http

/-- C3: the validator evaluates the four checks — status, body, headers,
latency — independently and in that order, never short-circuiting,
appending one message per violation: its output is exactly the
concatenation of the four check outputs; on a dict/dict body the number
of messages equals the number of missing-or-mismatched expected keys
(extra response keys contribute nothing); otherwise the body check is a
single substring-containment test; each expected header contributes one
message exactly when absent or mismatched; and a response violating both
the status and a header expectation yields at least two messages. -/
theorem C3_validator_additive_checks :
    (∀ (resp : Response) (exp : Expectation),
      validateResponse resp exp = statusCheck resp exp ++ bodyCheck resp exp ++
        headersCheck resp exp ++ latencyCheck resp exp) ∧
    (∀ (resp : Response) (exp : Expectation),
      statusCheck resp exp = [] ↔ resp.status = exp.status.getD 200) ∧
    (∀ (resp : Response) (exp : Expectation) (ebs rds : List (PyKey × PyVal)),
      exp.body = some (.dict ebs) → validationBodyData resp = .dict rds →
      (bodyCheck resp exp).length =
        (ebs.filter (fun kv =>
          match dictGet rds kv.1 with
          | none => true
          | some actual => !pyEq actual kv.2)).length) ∧
    (∀ (resp : Response) (exp : Expectation) (eb : PyVal), exp.body = some eb →
      (isDict eb = false ∨ isDict (validationBodyData resp) = false) →
      bodyCheck resp exp =
        (if containsSub (pyStr eb) (pyStr (validationBodyData resp)) then []
         else ["Expected body content \x27" ++ pyStr eb ++ "\x27 not found in response"])) ∧
    (∀ (resp : Response) (exp : Expectation) (hs : List (String × String)),
      exp.headers = some hs →
      (headersCheck resp exp).length =
        (hs.filter (fun kv =>
          match ciLookup resp.headers kv.1 with
          | none => true
          | some actual => !(actual == kv.2))).length) ∧
    (∀ (resp : Response) (exp : Expectation),
      statusCheck resp exp ≠ [] → headersCheck resp exp ≠ [] →
      2 ≤ (validateResponse resp exp).length) := by
  have hdecomp : ∀ (resp : Response) (exp : Expectation),
      validateResponse resp exp = statusCheck resp exp ++ bodyCheck resp exp ++
        headersCheck resp exp ++ latencyCheck resp exp := by
    intro resp exp
    simp [validateResponse]
  refine ⟨hdecomp, ?_, ?_, ?_, ?_, ?_⟩
  · intro resp exp
    unfold statusCheck
    by_cases h : resp.status = exp.status.getD 200
    · rw [if_neg (by simp [h])]
      simp [h]
    · rw [if_pos (by simp [h])]
      simp [h]
  · intro resp exp ebs rds hb hd
    unfold bodyCheck
    rw [hb, hd]
    show (ebs.filterMap _).length = _
    rw [length_filterMap_eq]
    congr 1
    apply List.filter_congr
    intro kv _
    cases hg : dictGet rds kv.1 with
    | none => simp
    | some actual =>
      cases hp : pyEq actual kv.2 with
      | true => simp [hp]
      | false => simp [hp]
  · intro resp exp eb hb hnd
    unfold bodyCheck
    rw [hb]
    cases heb : eb <;> cases hdd : validationBodyData resp <;>
      first
        | rfl
        | (exfalso
           rw [heb, hdd] at hnd
           simp [isDict] at hnd)
  · intro resp exp hs hh
    unfold headersCheck
    rw [hh]
    rw [length_filterMap_eq]
    congr 1
    apply List.filter_congr
    intro kv _
    cases hg : ciLookup resp.headers kv.1 with
    | none => simp
    | some actual =>
      cases hp : actual == kv.2 with
      | true => simp [hp]
      | false => simp [hp]
  · intro resp exp hst hhd
    rw [hdecomp resp exp]
    simp only [List.length_append]
    have h1 : 0 < (statusCheck resp exp).length := List.length_pos.mpr hst
    have h2 : 0 < (headersCheck resp exp).length := List.length_pos.mpr hhd
    omega

theorem C3_witness :
    statusCheck (Response.mk 500 [] "x" none 1) (Expectation.mk none none (some [("H", "v")]) none)
      ≠ [] ∧
    headersCheck (Response.mk 500 [] "x" none 1) (Expectation.mk none none (some [("H", "v")]) none)
      ≠ [] ∧
    2 ≤ (validateResponse (Response.mk 500 [] "x" none 1)
      (Expectation.mk none none (some [("H", "v")]) none)).length := by
  refine ⟨by decide, by decide, ?_⟩
  exact C3_validator_additive_checks.2.2.2.2.2 _ _ (by decide) (by decide)

/-- C4 counterexample: Python `str.isdigit` accepts the superscript-two
character while `int()` rejects it with a `ValueError`, an exception
not in the caught `(KeyError, IndexError, TypeError)` tuple: extraction
along the one-segment path of that character raises out of
`_extract_response_data`, and in `run_flow` the generic per-step
handler records a single Step-execution-failed Issue and halts.  So on
this input extraction throws, an Issue IS appended and the flow does
NOT continue to the next step, refuting the claim's universal
never-throws / no-Issue / continues statement. -/
theorem C4_counterexample :
    pathLookup (PyVal.dict [(PyKey.s "a", PyVal.int 1)]) (splitDots "²") =
      PathRes.uncaught (intValueErrorMsg "²") ∧
    extractResponseData (some (PyVal.dict [(PyKey.s "a", PyVal.int 1)])) "" [("v", "²")] =
      Except.error (intValueErrorMsg "²") ∧
    (runSteps "c" "http://h" c4Http [c4BadStep, c1StepB] 0 []).issues =
      [Issue.mk "flow" "c:1" ("Step execution failed: " ++ intValueErrorMsg "²")
        "Step 1" none none] ∧
    (runSteps "c" "http://h" c4Http [c4BadStep, c1StepB] 0 []).executed = [0] ∧
    (runSteps "c" "http://h" c4Http [c4BadStep, c1StepB] 0 []).success = false := by
  exact ⟨rfl, rfl, rfl, rfl, rfl⟩

/-- C4 amended: for every path all of whose digit-classified segments
are decimal (in particular every ASCII path, such as the example
"a.b.5"), extraction is total and its failures invisible: every
configured variable receives a binding, a path failing on one of the
caught lookup errors (key absent, index out of range, wrong container
kind) binds the null sentinel, a step with passing validation and
non-raising extraction never halts on a failed lookup, and in the flow
loop such a step appends no Issue and the flow continues to the next
step.  A segment that `isdigit` accepts but `int()` rejects instead
raises an uncaught `ValueError`, which the loop's generic handler
surfaces as a single Step-execution-failed issue that halts the
flow. -/
theorem C4_amended_extraction_silent_on_decimal_paths :
    (∀ (respJson : Option PyVal) (respText : String) (cfg : List (String × String)),
      (∀ p ∈ cfg, ∀ seg ∈ splitDots p.2, segSafe seg = true) →
      ∃ ext, extractResponseData respJson respText cfg = .ok ext ∧
        ext.map Prod.fst = cfg.map Prod.fst) ∧
    (pathLookup (.dict [(PyKey.s "a", .dict [(PyKey.s "b", .list [.int 1, .int 2])])])
      (splitDots "a.b.5") = PathRes.caught) ∧
    (extractResponseData (some (.dict [(PyKey.s "a", .dict [(PyKey.s "b",
      .list [.int 1, .int 2])])])) "" [("v", "a.b.5")] = .ok [("v", PyVal.null)]) ∧
    (∀ (respJson : Option PyVal) (respText : String) (cfg : List (String × String))
      (ext : List (String × PyVal)) (nm pth : String),
      extractResponseData respJson respText cfg = .ok ext → (nm, pth) ∈ cfg →
      pathLookup (extractionData respJson respText) (splitDots pth) = PathRes.caught →
      (nm, PyVal.null) ∈ ext) ∧
    (∀ (step : Step) (resp : Response) (cfg : List (String × String))
      (ext : List (String × PyVal)),
      validateResponse resp step.expect = [] → step.extract = some cfg →
      extractResponseData resp.json resp.text cfg = .ok ext →
      stepHalts step (.ok resp) = false) ∧
    (∀ (collection baseUrl : String) (http : HttpOracle) (step : Step) (rest : List Step)
      (idx : Nat) (vars : Vars) (resp : Response),
      http idx (buildRequest baseUrl step vars) = .ok resp →
      stepHalts step (.ok resp) = false →
      (runSteps collection baseUrl http (step :: rest) idx vars).issues =
        (runSteps collection baseUrl http rest (idx + 1)
          (stepNext step (.ok resp) vars)).issues ∧
      (runSteps collection baseUrl http (step :: rest) idx vars).executed =
        idx :: (runSteps collection baseUrl http rest (idx + 1)
          (stepNext step (.ok resp) vars)).executed) := by
  refine ⟨?_, rfl, rfl, ?_, ?_, ?_⟩
  · intro respJson respText cfg h
    exact extract_ok_of_safe respJson respText cfg h
  · intro rj rt cfg ext nm pth hok hmem hcaught
    exact extract_null_mem rj rt cfg ext nm pth hok hmem hcaught
  · intro step resp cfg ext hval hx hok
    show stepHalts step (.ok resp) = false
    have hext : stepExtractError step resp = none := by
      unfold stepExtractError
      rw [hx]
      show (match extractResponseData resp.json resp.text cfg with
        | Except.ok a => none
        | Except.error msg => some msg) = none
      rw [hok]
    show (if (validateResponse resp step.expect).isEmpty then
      (stepExtractError step resp).isSome else true) = false
    rw [hval]
    simp only [List.isEmpty_nil, if_true]
    rw [hext]
    rfl
  · intro collection baseUrl http step rest idx vars resp hok hh
    have hh2 : stepHalts step (http idx (buildRequest baseUrl step vars)) = false := by
      rw [hok]
      exact hh
    rw [runSteps_cons_cont collection baseUrl http step rest idx vars hh2, hok]
    exact ⟨rfl, rfl⟩

theorem C4_witness :
    (∃ ext, extractResponseData c4Resp.json c4Resp.text [("v", "a.b.5")] = .ok ext ∧
      ext.map Prod.fst = ["v"]) ∧
    ("v", PyVal.null) ∈ [("v", PyVal.null)] ∧
    stepHalts c4Step (.ok c4Resp) = false ∧
    (runSteps "c" "http://h" c4Http [c4Step] 0 []).issues =
      (runSteps "c" "http://h" c4Http [] 1 (stepNext c4Step (.ok c4Resp) [])).issues ∧
    (runSteps "c" "http://h" c4Http [c4Step] 0 []).executed =
      0 :: (runSteps "c" "http://h" c4Http [] 1 (stepNext c4Step (.ok c4Resp) [])).executed := by
  have hhalt := C4_amended_extraction_silent_on_decimal_paths.2.2.2.2.1 c4Step c4Resp
    [("v", "a.b.5")] [("v", PyVal.null)] rfl rfl rfl
  have hcont := C4_amended_extraction_silent_on_decimal_paths.2.2.2.2.2 "c" "http://h"
    c4Http c4Step [] 0 [] c4Resp rfl hhalt
  refine ⟨?_, ?_, hhalt, hcont.1, hcont.2⟩
  · exact C4_amended_extraction_silent_on_decimal_paths.1 c4Resp.json c4Resp.text
      [("v", "a.b.5")] (by decide)
  · exact C4_amended_extraction_silent_on_decimal_paths.2.2.2.1 c4Resp.json c4Resp.text
      [("v", "a.b.5")] [("v", PyVal.null)] "v" "a.b.5" rfl (by simp) rfl

/-- C5: the Variable Store invariant.  In a run over a nonempty step
list the store at entry of the first executed step is the collection's
declared variables with the reserved base_url binding set; along the
whole run (including the final store) keys are only added or
overwritten, never removed; each successive store is exactly what
stepNext produces for the executed step; stepNext leaves the store
unchanged on a halting step (request error, any validation violation,
or an extraction that raises) and when the step declares no extract,
and merges the extraction results exactly when validation produced
zero violations, extract is declared and the extraction returned; and
every extracted name — even one bound to the null sentinel — ends up
as a key of the merged store. -/
theorem C5_variable_store_invariant (collection baseUrl : String) (cd : Collection)
    (http : HttpOracle) (hne : cd.steps ≠ []) :
    (runFlow collection baseUrl (.ok cd) http).varsTrace.head? =
      some (setVar cd.seedVars "base_url" (.str baseUrl)) ∧
    List.Chain' (fun a b => ∀ k, k ∈ varKeys a → k ∈ varKeys b)
      ((runFlow collection baseUrl (.ok cd) http).varsTrace ++
        [(runFlow collection baseUrl (.ok cd) http).finalVars]) ∧
    (∀ (j : Nat) (a b : Vars) (step0 : Step),
      (runFlow collection baseUrl (.ok cd) http).varsTrace.get? j = some a →
      (runFlow collection baseUrl (.ok cd) http).varsTrace.get? (j + 1) = some b →
      cd.steps.get? j = some step0 →
      b = stepNext step0 (http j (buildRequest baseUrl step0 a)) a) ∧
    (∀ (step0 : Step) (outcome : ReqOutcome) (vars : Vars),
      stepHalts step0 outcome = true → stepNext step0 outcome vars = vars) ∧
    (∀ (step0 : Step) (outcome : ReqOutcome) (vars : Vars),
      step0.extract = none → stepNext step0 outcome vars = vars) ∧
    (∀ (step0 : Step) (resp : Response) (vars : Vars) (cfg : List (String × String))
      (ext : List (String × PyVal)),
      step0.extract = some cfg → validateResponse resp step0.expect = [] →
      extractResponseData resp.json resp.text cfg = .ok ext →
      stepNext step0 (.ok resp) vars = updateVars vars ext) ∧
    (∀ (vars : Vars) (respJson : Option PyVal) (respText : String)
      (cfg : List (String × String)) (ext : List (String × PyVal)) (nm : String),
      extractResponseData respJson respText cfg = .ok ext → nm ∈ cfg.map Prod.fst →
      nm ∈ varKeys (updateVars vars ext)) := by
  have hie : cd.steps.isEmpty = false := by
    cases h : cd.steps with
    | nil => exact absurd h hne
    | cons a l => rfl
  have hcd : Collection.mk cd.name cd.description cd.seedVars cd.steps = cd := rfl
  have hrw : runFlow collection baseUrl (.ok cd) http =
      (let out := runSteps collection baseUrl http cd.steps 0
        (setVar cd.seedVars "base_url" (.str baseUrl))
       FlowRun.mk
        (FlowResult.mk out.success out.issues
          (if out.success then
            some ("Successfully executed " ++ toString cd.steps.length ++ " steps in flow \x27" ++
              cd.name.getD "Unnamed Flow" ++ "\x27")
          else none))
        out.executed out.varsTrace out.finalVars) := by
    rw [← hcd]
    exact runFlow_ok collection baseUrl cd.name cd.description cd.seedVars cd.steps http hie
  rw [hrw]
  dsimp only
  refine ⟨?_, ?_, ?_, ?_, ?_, ?_, ?_⟩
  · exact runSteps_trace_head collection baseUrl http cd.steps 0 _ hne
  · exact runSteps_chain_keysGrow collection baseUrl http cd.steps 0 _
  · intro j a b step0 h1 h2 h3
    have := runSteps_trace_link collection baseUrl http cd.steps 0 _ j a b step0 h1 h2 h3
    rw [this, Nat.zero_add]
  · intro step0 outcome vars h
    cases outcome with
    | exn e => rfl
    | ok resp =>
      show (if (validateResponse resp step0.expect).isEmpty then
        (match step0.extract with
         | some cfg =>
           (match extractResponseData resp.json resp.text cfg with
            | .ok ext => updateVars vars ext
            | .error _ => vars)
         | none => vars)
        else vars) = vars
      cases hv : (validateResponse resp step0.expect).isEmpty with
      | false => rw [if_neg (by simp)]
      | true =>
        rw [if_pos rfl]
        have hx : (stepExtractError step0 resp).isSome = true := by
          simpa [stepHalts, hv] using h
        cases hcfg : step0.extract with
        | none => rfl
        | some cfg =>
          cases he : extractResponseData resp.json resp.text cfg with
          | error m =>
            show (match extractResponseData resp.json resp.text cfg with
              | Except.ok ext => updateVars vars ext
              | Except.error a => vars) = vars
            rw [he]
          | ok ext =>
            have hnone : stepExtractError step0 resp = none := by
              unfold stepExtractError
              rw [hcfg]
              show (match extractResponseData resp.json resp.text cfg with
                | Except.ok a => none
                | Except.error msg => some msg) = none
              rw [he]
            rw [hnone] at hx
            simp at hx
  · intro step0 outcome vars h
    cases outcome with
    | exn e => rfl
    | ok resp =>
      show (if (validateResponse resp step0.expect).isEmpty then
        (match step0.extract with
         | some cfg =>
           (match extractResponseData resp.json resp.text cfg with
            | .ok ext => updateVars vars ext
            | .error _ => vars)
         | none => vars)
        else vars) = vars
      rw [h]
      cases hv : (validateResponse resp step0.expect).isEmpty with
      | true => rw [if_pos rfl]
      | false => rw [if_neg (by simp)]
  · intro step0 resp vars cfg ext hx hv hok
    show (if (validateResponse resp step0.expect).isEmpty then
      (match step0.extract with
       | some cfg =>
         (match extractResponseData resp.json resp.text cfg with
          | .ok ext2 => updateVars vars ext2
          | .error _ => vars)
       | none => vars)
      else vars) = updateVars vars ext
    rw [hv]
    simp only [List.isEmpty_nil, if_true]
    rw [hx]
    show (match extractResponseData resp.json resp.text cfg with
      | Except.ok ext2 => updateVars vars ext2
      | Except.error a => vars) = updateVars vars ext
    rw [hok]
  · intro vars respJson respText cfg ext nm hok hnm
    apply varKeys_updateVars_mem
    show nm ∈ ext.map Prod.fst
    rw [extractResponseData_names respJson respText cfg ext hok]
    exact hnm

theorem C5_witness :
    (runFlow "c" "http://h" (.ok (Collection.mk none none [("u", PyVal.int 1)] [c5Step]))
      c5Http).varsTrace.head? =
      some (setVar [("u", PyVal.int 1)] "base_url" (.str "http://h")) ∧
    stepNext c5Step (.exn "boom") [("u", PyVal.int 1)] = [("u", PyVal.int 1)] ∧
    "v" ∈ varKeys (updateVars [("u", PyVal.int 1)] [("v", PyVal.null)]) := by
  have h := C5_variable_store_invariant "c" "http://h"
    (Collection.mk none none [("u", PyVal.int 1)] [c5Step]) c5Http (by simp)
  refine ⟨h.1, ?_, ?_⟩
  · exact h.2.2.2.1 c5Step (.exn "boom") [("u", PyVal.int 1)] rfl
  · exact h.2.2.2.2.2.2 [("u", PyVal.int 1)] none "" [("v", "missing.path")]
      [("v", PyVal.null)] "v" rfl (by simp)

/-- C6: substitution replaces occurrences of a bound placeholder by the
value's string form (shown for a placeholder occurring at the front of
any text, hence for every occurrence as the sweep recurses), leaves a
text without any bound placeholder verbatim — in particular the literal
text of an unbound placeholder — and passes every non-string input
through unchanged. -/
theorem C6_substitution_contract :
    (∀ (v : PyVal) (vars : List (String × PyVal)), isStr v = false →
      substituteVariables v vars = v) ∧
    (∀ (k : String) (val : PyVal), substString (placeholder k) [(k, val)] = pyStr val) ∧
    (∀ (k : String) (val : PyVal) (b : String),
      substString (placeholder k ++ b) [(k, val)] = pyStr val ++ substString b [(k, val)]) ∧
    (substString "\x7b\x7bmissing\x7d\x7d" [] = "\x7b\x7bmissing\x7d\x7d") ∧
    (∀ (s : String) (vars : List (String × PyVal)),
      (∀ kv ∈ vars, containsSub (placeholder kv.1) s = false) → substString s vars = s) := by
  refine ⟨?_, ?_, ?_, rfl, ?_⟩
  · intro v vars h
    cases v with
    | str s => simp [isStr] at h
    | null => rfl
    | bool b => rfl
    | int n => rfl
    | list xs => rfl
    | dict es => rfl
  · intro k val
    rw [substString_cons, pyReplace_self _ _ (placeholder_data_ne_nil k)]
    rfl
  · intro k val b
    rw [substString_cons, pyReplace_front _ _ _ (placeholder_data_ne_nil k)]
    rfl
  · intro s vars
    induction vars generalizing s with
    | nil => intro _; rfl
    | cons kv rest ih =>
      intro h
      rw [substString_cons, pyReplace_no_occ _ _ _ (h kv (by simp))]
      exact ih s (fun kv2 h2 => h kv2 (by simp [h2]))

theorem C6_witness :
    substituteVariables (PyVal.int 3) [("a", PyVal.int 1)] = PyVal.int 3 ∧
    substString (placeholder "k") [("k", PyVal.int 7)] = "7" ∧
    substString "hello" [("a", PyVal.int 1)] = "hello" := by
  refine ⟨?_, ?_, ?_⟩
  · exact C6_substitution_contract.1 (PyVal.int 3) [("a", PyVal.int 1)] rfl
  · rw [C6_substitution_contract.2.1 "k" (PyVal.int 7)]
    rfl
  · refine C6_substitution_contract.2.2.2.2 "hello" [("a", PyVal.int 1)] ?_
    intro kv hkv
    simp only [List.mem_singleton] at hkv
    subst hkv
    decide

/-- C7 counterexample: with vars iterating a before b, where a's value
contains the b placeholder, substituting "\x7b\x7ba\x7d\x7d" yields "x": the
value substituted for a IS re-scanned for the later key b, so the
introduced placeholder does not survive, contradicting the claim. -/
theorem C7_counterexample :
    substString "\x7b\x7ba\x7d\x7d"
      [("a", PyVal.str "\x7b\x7bb\x7d\x7d"), ("b", PyVal.str "x")] = "x" ∧
    containsSub (placeholder "b")
      (substString "\x7b\x7ba\x7d\x7d"
        [("a", PyVal.str "\x7b\x7bb\x7d\x7d"), ("b", PyVal.str "x")]) = false ∧
    substString "\x7b\x7ba\x7d\x7d"
      [("a", PyVal.str "\x7b\x7bb\x7d\x7d"), ("b", PyVal.str "x")] ≠ "\x7b\x7bb\x7d\x7d" := by
  refine ⟨rfl, rfl, by decide⟩

/-- C7 amended: substitution is one sequential pass over the variable
map in iteration order; a substituted value is never re-scanned for the
key just replaced or for earlier keys, but it IS re-scanned for later
keys.  In particular the placeholder of b introduced by substituting a
survives exactly when b precedes a in the iteration order. -/
theorem C7_amended_single_sequential_pass :
    (∀ (a b : String) (vb : PyVal) (va : String),
      containsSub (placeholder b) (placeholder a) = false →
      substString (placeholder a) [(b, vb), (a, PyVal.str va)] = va) ∧
    (∀ (a b : String) (vb : PyVal),
      substString (placeholder a) [(a, PyVal.str (placeholder b)), (b, vb)] = pyStr vb) := by
  constructor
  · intro a b vb va h
    rw [substString_cons, pyReplace_no_occ _ _ _ h, substString_cons,
      pyReplace_self _ _ (placeholder_data_ne_nil a)]
    rfl
  · intro a b vb
    rw [substString_cons, pyReplace_self _ _ (placeholder_data_ne_nil a)]
    show substString (placeholder b) [(b, vb)] = pyStr vb
    rw [substString_cons, pyReplace_self _ _ (placeholder_data_ne_nil b)]
    rfl

theorem C7_witness :
    containsSub (placeholder "b") (placeholder "a") = false ∧
    substString (placeholder "a") [("b", PyVal.int 9), ("a", PyVal.str (placeholder "b"))]
      = placeholder "b" := by
  refine ⟨by decide, ?_⟩
  exact C7_amended_single_sequential_pass.1 "a" "b" (PyVal.int 9) (placeholder "b") (by decide)

/-- C8 counterexample: the spec says exactly one trailing slash is
stripped from the base URL, so a base ending in a double slash should
keep one; the code strips them all. -/
theorem C8_counterexample :
    buildFullUrl "a" "http://h//" = "http://h/a" ∧
    ("http://h/a" : String) ≠ "http://h//a" := by
  exact ⟨rfl, by decide⟩

/-- C8 amended: a url beginning with the prefix "http" is used as-is;
otherwise ALL trailing slashes are stripped from the base and ALL
leading slashes from the url before joining with one slash (so a base
ending in "//" loses both slashes). -/
theorem C8_amended_url_resolution :
    (∀ url baseUrl : String, strStartsWith url "http" = true →
      buildFullUrl url baseUrl = url) ∧
    (∀ url baseUrl : String, strStartsWith url "http" = false →
      buildFullUrl url baseUrl = rstripSlash baseUrl ++ "/" ++ lstripSlash url) ∧
    (∀ baseUrl : String, rstripSlash (baseUrl ++ "/") = rstripSlash baseUrl) ∧
    (∀ url : String, lstripSlash ("/" ++ url) = lstripSlash url) ∧
    (∀ s : String, (rstripSlash s).data.getLast? ≠ some '/') ∧
    (∀ s : String, (lstripSlash s).data.head? ≠ some '/') := by
  refine ⟨?_, ?_, ?_, ?_, ?_, ?_⟩
  · intro url baseUrl h
    unfold buildFullUrl
    rw [if_pos h]
  · intro url baseUrl h
    unfold buildFullUrl
    rw [if_neg (by simp [h])]
  · intro b
    unfold rstripSlash
    congr 1
    rw [String.data_append_eq]
    have hd : ("/" : String).data = ['/'] := rfl
    rw [hd]
    rw [List.reverse_append]
    simp [List.dropWhile_cons]
  · intro url
    unfold lstripSlash
    congr 1
  · intro s hc
    unfold rstripSlash at hc
    simp only [List.getLast?_reverse] at hc
    have := dropWhile_head_not (fun c => c = '/') s.data.reverse '/' hc
    simp at this
  · intro s hc
    unfold lstripSlash at hc
    have := dropWhile_head_not (fun c => c = '/') s.data '/' hc
    simp at this

theorem C8_witness :
    buildFullUrl "http://x" "b" = "http://x" ∧ buildFullUrl "a" "b//" = "b/a" := by
  constructor
  · exact C8_amended_url_resolution.1 "http://x" "b" (by decide)
  · rw [C8_amended_url_resolution.2.1 "a" "b//" (by decide)]
    rfl

/-- C9: a Collection whose steps sequence is empty makes `run_flow`
return `success = false` with exactly the single setup-stage issue
"No test steps found in collection", and no step is executed, whatever
the other collection fields, the base URL and the network are. -/
theorem C9_zero_step_rejection (collection baseUrl : String) (name desc : Option String)
    (seed : Vars) (http : HttpOracle) :
    (runFlow collection baseUrl (.ok (Collection.mk name desc seed [])) http).result.success
        = false ∧
    (runFlow collection baseUrl (.ok (Collection.mk name desc seed [])) http).result.issues
        = [setupIssue collection "No test steps found in collection"] ∧
    (∀ i ∈ (runFlow collection baseUrl (.ok (Collection.mk name desc seed [])) http).result.issues,
      i.step = "setup") ∧
    (runFlow collection baseUrl (.ok (Collection.mk name desc seed [])) http).executed = [] := by
  refine ⟨rfl, rfl, ?_, rfl⟩
  intro i hi
  simp only [runFlow, List.isEmpty_nil, if_true] at hi
  simp only [List.mem_singleton] at hi
  subst hi
  rfl

/-- C10: a digit-classified path segment always takes the integer
branch — `int(key)` then `value[int(key)]` — and never a string-key
lookup, even when the current value is a mapping; for a segment
consisting of decimal digits this is the integer-key dict lookup: an
entry under the integer key 0 is retrieved by segment "0", a dict
whose keys are all strings raises the caught `KeyError` (a null
binding) for every decimal segment, and extracting "0" from a dict
with the digit-string key "0" binds null rather than that entry's
value. -/
theorem C10_digit_segment_is_integer_index :
    (∀ (v : PyVal) (seg : String), strIsDigit seg = true →
      pathStep v seg =
        (match intOfDigitStr seg with
         | some n => subscriptRes (pyGetInt v n)
         | none => PathRes.uncaught (intValueErrorMsg seg))) ∧
    (∀ (es : List (PyKey × PyVal)) (seg : String), strIsDecimal seg = true →
      pathStep (.dict es) seg =
        subscriptRes (dictGet es (.i (Int.ofNat (digitsToNat seg))))) ∧
    (∀ (es : List (PyKey × PyVal)) (v : PyVal), dictGet es (.i 0) = some v →
      pathLookup (.dict es) (splitDots "0") = PathRes.val v) ∧
    (∀ (es : List (PyKey × PyVal)) (seg : String), strIsDecimal seg = true →
      (∀ p ∈ es, ∃ sk, p.1 = PyKey.s sk) → pathStep (.dict es) seg = PathRes.caught) ∧
    (∀ v : PyVal,
      extractResponseData (some (.dict [(PyKey.s "0", v)])) "" [("x", "0")] =
        .ok [("x", PyVal.null)]) := by
  have hdigit : ∀ (v : PyVal) (seg : String), strIsDigit seg = true →
      pathStep v seg =
        (match intOfDigitStr seg with
         | some n => subscriptRes (pyGetInt v n)
         | none => PathRes.uncaught (intValueErrorMsg seg)) := by
    intro v seg h
    unfold pathStep
    rw [if_pos h]
  have hdec : ∀ (es : List (PyKey × PyVal)) (seg : String), strIsDecimal seg = true →
      pathStep (.dict es) seg =
        subscriptRes (dictGet es (.i (Int.ofNat (digitsToNat seg)))) := by
    intro es seg h
    rw [hdigit (.dict es) seg (strIsDigit_of_decimal seg h)]
    have hi : intOfDigitStr seg = some (digitsToNat seg) := by
      unfold intOfDigitStr
      rw [if_pos h]
    rw [hi]
    rfl
  refine ⟨hdigit, hdec, ?_, ?_, ?_⟩
  · intro es v h
    show pathLookup (.dict es) ["0"] = PathRes.val v
    unfold pathLookup
    rw [hdec es "0" (by decide)]
    have h0 : (Int.ofNat (digitsToNat "0")) = (0 : Int) := rfl
    rw [h0, h]
    rfl
  · intro es seg h hkeys
    rw [hdec es seg h]
    rw [dictGet_int_none_of_str_keys _ es hkeys]
    rfl
  · intro v
    rfl

theorem C10_witness :
    pathStep (.dict [(PyKey.i 0, PyVal.int 7)]) "0" =
      subscriptRes (dictGet [(PyKey.i 0, PyVal.int 7)] (.i (Int.ofNat (digitsToNat "0")))) ∧
    pathLookup (.dict [(PyKey.i 0, PyVal.int 7)]) (splitDots "0") = PathRes.val (PyVal.int 7) ∧
    pathStep (.dict [(PyKey.s "x", PyVal.int 1)]) "5" = PathRes.caught := by
  refine ⟨?_, ?_, ?_⟩
  · exact C10_digit_segment_is_integer_index.2.1 _ "0" (by decide)
  · exact C10_digit_segment_is_integer_index.2.2.1 _ _ rfl
  · refine C10_digit_segment_is_integer_index.2.2.2.1 _ "5" (by decide) ?_
    intro p hp
    simp only [List.mem_singleton] at hp
    subst hp
    exact ⟨"x", rfl⟩

theorem C2_witness :
    ((runFlow "c" "http://h" (.fileNotFound "nope") c1Http).result.success = true ↔
      (runFlow "c" "http://h" (.fileNotFound "nope") c1Http).result.issues = []) ∧
    ((runSingleTest "GET" "/x" "http://h" 200 none none none 30
        (fun _ => .exn "boom")).success = true ↔
      (runSingleTest "GET" "/x" "http://h" 200 none none none 30
        (fun _ => .exn "boom")).issues = []) := by
  exact ⟨C2_success_iff_no_issues.1 "c" "http://h" (.fileNotFound "nope") c1Http,
    C2_success_iff_no_issues.2 "GET" "/x" "http://h" 200 none none none 30
      (fun _ => .exn "boom")⟩

theorem C9_witness :
    (runFlow "c" "http://h" (.ok (Collection.mk none none [] [])) c1Http).result.success
      = false ∧
    (runFlow "c" "http://h" (.ok (Collection.mk none none [] [])) c1Http).result.issues
      = [setupIssue "c" "No test steps found in collection"] := by
  exact ⟨(C9_zero_step_rejection "c" "http://h" none none [] c1Http).1,
    (C9_zero_step_rejection "c" "http://h" none none [] c1Http).2.1⟩
